import Mathlib

/-! chatbot-pro: request normalisation layer.

A shallow embedding of `server.js`: the content sanitizer
(`sanitizeOpenAIContent`, `sanitizeOpenAIMessages`), the message builders of
the chat paths, and the three handlers `/api/chat`, `/api/chat-with-files` and
`/api/analyze` as functions from a request and its environment to the response,
the provider calls made and the deletions attempted; and of `wrapText` of
`utils/convert.js`. The theorems about them follow the definitions.

JavaScript values are modelled by `JsVal`, the values `JSON.parse` can
produce together with `undefined` (the result of reading a missing property).
Objects are association lists in insertion order; a property read returns the
first binding of the key.
-/

namespace ChatbotPro

/-- JavaScript values reachable from a parsed request body. Numbers are kept
as integers: only their being zero or not is ever observed (truthiness). -/
inductive JsVal where
  | undefined : JsVal
  | null : JsVal
  | bool (b : Bool) : JsVal
  | num (n : Int) : JsVal
  | str (s : String) : JsVal
  | arr (items : List JsVal) : JsVal
  | obj (fields : List (String × JsVal)) : JsVal

namespace JsVal

/-- JavaScript truthiness (`!!v`). -/
def truthy : JsVal → Bool
  | undefined => false
  | null => false
  | bool b => b
  | num n => n != 0
  | str s => s != ""
  | arr _ => true
  | obj _ => true

/-- The test `typeof v === 'object'` (true of `null`, arrays and objects). -/
def typeofObject : JsVal → Bool
  | null => true
  | arr _ => true
  | obj _ => true
  | _ => false

/-- The test `typeof v === 'string'`. -/
def isString : JsVal → Bool
  | str _ => true
  | _ => false

/-- The test `Array.isArray(v)`. -/
def isArray : JsVal → Bool
  | arr _ => true
  | _ => false

/-- The test `v === 'lit'` against a string literal. -/
def strictEqStr (v : JsVal) (lit : String) : Bool :=
  match v with
  | str s => s == lit
  | _ => false

/-- The expression `a || b`. -/
def jsOr (a b : JsVal) : JsVal := if a.truthy then a else b

end JsVal

open JsVal

/-- Own-property lookup in an object's binding list. -/
def lookup (k : String) : List (String × JsVal) → JsVal
  | [] => .undefined
  | (k', v) :: rest => if k' = k then v else lookup k rest

/-- Property read `v.k` on a non-nullish value (also `v?.k`, which differs only
on `null`/`undefined`, where it gives `undefined`). None of the property
names read by the server exists on a primitive or an array. -/
def get (v : JsVal) (k : String) : JsVal :=
  match v with
  | .obj fs => lookup k fs
  | _ => .undefined

/-- The binding list of `{ ...m, k: v }`: the key keeps its position when it is
already bound and is added last otherwise. -/
def setField (k : String) (v : JsVal) : List (String × JsVal) → List (String × JsVal)
  | [] => [(k, v)]
  | (k', w) :: rest => if k' = k then (k', v) :: rest else (k', w) :: setField k v rest

/-- The canonical image reference `{ type: 'image_url', image_url: { url } }`. -/
def canonicalImage (url : JsVal) : JsVal :=
  .obj [("type", .str "image_url"), ("image_url", .obj [("url", url)])]

/-- The expression `typeof raw === 'string' ? raw : (raw?.url || '')` of
`sanitizeOpenAIContent`. -/
def unwrapUrl (raw : JsVal) : JsVal :=
  if raw.isString then raw else jsOr (get raw "url") (.str "")

/-- The expression `part.image_url || part.image || part.url || part.data || ''`. -/
def rawUrl (part : JsVal) : JsVal :=
  jsOr (jsOr (jsOr (jsOr (get part "image_url") (get part "image")) (get part "url"))
    (get part "data")) (.str "")

/-- The callback that `sanitizeOpenAIContent` maps over the blocks. -/
def sanitizePart (part : JsVal) : JsVal :=
  if !part.truthy || !part.typeofObject then part
  else if strictEqStr (get part "type") "input_image" then
    canonicalImage (unwrapUrl (rawUrl part))
  else if strictEqStr (get part "type") "image_url" && (get part "image_url").isString then
    canonicalImage (get part "image_url")
  else part

/-- The call `v.map(f)`: defined on arrays, a `TypeError` (`none`) on every
other value. -/
def jsMap (f : JsVal → JsVal) : JsVal → Option JsVal
  | .arr xs => some (.arr (xs.map f))
  | _ => none

/-- Source `sanitizeOpenAIContent(content)`: `(content || []).map(part => ...)`. -/
def sanitizeOpenAIContent (content : JsVal) : Option JsVal :=
  jsMap sanitizePart (jsOr content (.arr []))

/-- Map a fallible callback over a list, failing as soon as one call fails. -/
def mapOpt {α β : Type} (f : α → Option β) : List α → Option (List β)
  | [] => some []
  | x :: xs =>
    match f x with
    | none => none
    | some y => (mapOpt f xs).map (fun ys => y :: ys)

/-- The callback that `sanitizeOpenAIMessages` maps over the messages. -/
def sanitizeMessage (m : JsVal) : Option JsVal :=
  if !m.truthy || !m.typeofObject then some m
  else if (get m "content").isArray then
    match m with
    | .obj fs =>
      (sanitizeOpenAIContent (get m "content")).map (fun c => .obj (setField "content" c fs))
    | _ => some m
  else some m

/-- Source `sanitizeOpenAIMessages(messages)`: `(messages || []).map(m => ...)`. -/
def sanitizeOpenAIMessages (messages : JsVal) : Option JsVal :=
  match jsOr messages (.arr []) with
  | .arr ms => (mapOpt sanitizeMessage ms).map .arr
  | _ => none

/-- The callback of `sanitizeOpenAIMessages` as a total function: the value it
returns on every message (it has no failing path, see `sanitizeMessage_eq`). -/
def sanitizeMessageFn (m : JsVal) : JsVal :=
  match m with
  | .obj fs =>
    match lookup "content" fs with
    | .arr bs => .obj (setField "content" (.arr (bs.map sanitizePart)) fs)
    | _ => m
  | _ => m

/-- The fallback fields of an `input_image` block, in the order the source
consults them. -/
def fallbackFields : List String := ["image_url", "image", "url", "data"]

/-- The two rewrite conditions of `sanitizeOpenAIContent`: an object tagged
`input_image`, or an object tagged `image_url` whose `image_url` is a string. -/
def isRewritten (b : JsVal) : Bool :=
  match b with
  | .obj fs =>
    strictEqStr (lookup "type" fs) "input_image" ||
      (strictEqStr (lookup "type" fs) "image_url" && (lookup "image_url" fs).isString)
  | _ => false

/-- The URL recovery as the specification words it: the value of the first
fallback field that is present on the block, unwrapped one level when that
value is an object carrying a `url`; the empty string when none is present. -/
def specFirstPresentUrl (fs : List (String × JsVal)) : JsVal :=
  match fallbackFields.find? (fun g => decide (g ∈ fs.map Prod.fst)) with
  | none => .str ""
  | some g =>
    match lookup g fs with
    | .obj inner => if "url" ∈ inner.map Prod.fst then lookup "url" inner else .obj inner
    | v => v

/-- The two canonical block kinds of the specification: a text block
`{type: 'text', text}` or an image reference `{type: 'image_url', image_url: {url}}`. -/
def isCanonicalBlock (b : JsVal) : Bool :=
  (strictEqStr (get b "type") "text" && (get b "text").isString) ||
    (strictEqStr (get b "type") "image_url" && (get (get b "image_url") "url").isString)

/-! ## Strings -/

/-- The code points stripped by `String.prototype.trim`: ECMAScript WhiteSpace
(TAB, VT, FF, ZWNBSP and the Unicode space separators) and LineTerminator. -/
def isJsSpace (c : Char) : Bool :=
  let n := c.toNat
  n == 0x09 || n == 0x0A || n == 0x0B || n == 0x0C || n == 0x0D || n == 0x20 ||
  n == 0xA0 || n == 0x1680 || (0x2000 ≤ n && n ≤ 0x200A) || n == 0x2028 || n == 0x2029 ||
  n == 0x202F || n == 0x205F || n == 0x3000 || n == 0xFEFF

/-- Strip leading and trailing white space from a list of characters. -/
def trimChars (cs : List Char) : List Char :=
  ((cs.dropWhile isJsSpace).reverse.dropWhile isJsSpace).reverse

/-- The call `s.trim()`. -/
def jsTrim (s : String) : String := ⟨trimChars s.data⟩

/-! ## History folding -/

/-- One iteration of the Gemini history loop of `/api/chat` and
`/api/chat-with-files`:
`const text = (typeof m?.content === 'string' ? m.content : m?.text) || '';`
`if (!text.trim()) continue; contents.push({ role: ..., parts: [{ text }] })`.
`none` is the `TypeError` raised by `text.trim()` on a truthy non-string. -/
def geminiHistoryStep (contents : List JsVal) (m : JsVal) : Option (List JsVal) :=
  match jsOr (if (get m "content").isString then get m "content" else get m "text") (.str "") with
  | .str s =>
    if jsTrim s = "" then some contents
    else some (contents ++ [.obj [
      ("role", .str (if strictEqStr (get m "role") "assistant" then "model" else "user")),
      ("parts", .arr [.obj [("text", .str s)]])]])
  | _ => none

/-- The loop `for (const m of (history || [])) { ... }` filling `contents`. -/
def geminiHistoryLoop (contents : List JsVal) : List JsVal → Option (List JsVal)
  | [] => some contents
  | m :: rest =>
    match geminiHistoryStep contents m with
    | none => none
    | some contents' => geminiHistoryLoop contents' rest

/-- The callback of `history.map(...)` on the OpenAI paths:
`const c = typeof m?.content === 'string' ? m.content : (m?.text || '');`
`if (!c?.trim()) return null; return { role: m.role, content: c }`.
`none` is the `TypeError` raised by `c?.trim()` on a truthy non-string. -/
def openaiHistoryTurn (m : JsVal) : Option JsVal :=
  match (if (get m "content").isString then get m "content"
      else jsOr (get m "text") (.str "")) with
  | .str s =>
    if jsTrim s = "" then some .null
    else some (.obj [("role", get m "role"), ("content", .str s)])
  | _ => none

/-- The expression `history.map(...).filter(Boolean)`. -/
def openaiHistory (history : List JsVal) : Option (List JsVal) :=
  (mapOpt openaiHistoryTurn history).map (fun turns => turns.filter truthy)

/-! ## The final user turn of `/api/chat-with-files` -/

/-- An entry of `texts`: `{ filename, text }`. -/
structure DocText where
  filename : String
  text : String

/-- An entry of `images`: `{ filename, base64, mimeType }`. -/
structure Image where
  filename : String
  base64 : String
  mimeType : String

/-- A Gemini text part `{ text }`. -/
def textPart (s : String) : JsVal := .obj [("text", .str s)]

/-- A Gemini image part `{ inlineData: { data, mimeType } }`. -/
def inlineDataPart (img : Image) : JsVal :=
  .obj [("inlineData", .obj [("data", .str img.base64), ("mimeType", .str img.mimeType)])]

/-- An OpenAI text block `{ type: 'text', text }`. -/
def textBlock (s : String) : JsVal := .obj [("type", .str "text"), ("text", .str s)]

/-- An OpenAI image block with the data URI built from the image's MIME type
and base64 data. -/
def imageUrlBlock (img : Image) : JsVal :=
  canonicalImage (.str ("data:" ++ img.mimeType ++ ";base64," ++ img.base64))

/-- The line that opens the attached documents. -/
def docsPreamble : String := "\nAttached documents (extracted text):\n"

/-- The template `--- ${filename} ---\n${block}\n`. -/
def docSection (filename block : String) : String :=
  "--- " ++ filename ++ " ---\n" ++ block ++ "\n"

/-- The array `parts` built by the Gemini branch of `/api/chat-with-files`. -/
def geminiParts (prompt : String) (texts : List DocText) (images : List Image) : List JsVal :=
  (if prompt != "" && jsTrim prompt != "" then [textPart (jsTrim prompt)] else []) ++
  (if texts.length != 0 then
      textPart docsPreamble :: texts.map (fun t => textPart (docSection t.filename (jsTrim t.text)))
    else []) ++
  images.map inlineDataPart

/-- The body of the loop over `texts` in the OpenAI branch:
`const block = (t.text || '').trim(); if (block) combined += ...`. -/
def combineStep (combined : String) (t : DocText) : String :=
  if jsTrim t.text != "" then combined ++ docSection t.filename (jsTrim t.text)
  else combined

/-- The string `combined` built by the OpenAI branch of `/api/chat-with-files`. -/
def openaiCombined (texts : List DocText) : String :=
  texts.foldl combineStep docsPreamble

/-- The array `content` before the placeholder check. -/
def openaiContentRaw (prompt : String) (texts : List DocText) (images : List Image) :
    List JsVal :=
  (if prompt != "" && jsTrim prompt != "" then [textBlock (jsTrim prompt)] else []) ++
  (if texts.length != 0 then [textBlock (openaiCombined texts)] else []) ++
  images.map imageUrlBlock

/-- The array `content` built by the OpenAI branch of `/api/chat-with-files`. -/
def openaiContent (prompt : String) (texts : List DocText) (images : List Image) :
    List JsVal :=
  if (openaiContentRaw prompt texts images).length = 0 then [textBlock "(no content)"]
  else openaiContentRaw prompt texts images

/-! ## What each chat path sends -/

/-- The `contents` sent by the Gemini branch of `/api/chat`. -/
def chatGeminiContents (history : List JsVal) (prompt : String) : Option (List JsVal) :=
  (geminiHistoryLoop [] history).map (fun contents =>
    contents ++ [.obj [("role", .str "user"), ("parts", .arr [textPart (jsTrim prompt)])]])

/-- The `messages` sent by the OpenAI branch of `/api/chat`. -/
def chatOpenAIMessages (history : List JsVal) (prompt : String) : Option JsVal :=
  (openaiHistory history).bind (fun turns =>
    sanitizeOpenAIMessages
      (.arr (turns ++ [.obj [("role", .str "user"), ("content", .str (jsTrim prompt))]])))

/-- The `contents` sent by the Gemini branch of `/api/chat-with-files`. -/
def filesGeminiContents (history : List JsVal) (prompt : String) (texts : List DocText)
    (images : List Image) : Option (List JsVal) :=
  (geminiHistoryLoop [] history).map (fun contents =>
    contents ++ [.obj [("role", .str "user"), ("parts", .arr (geminiParts prompt texts images))]])

/-- The `safeMessages` sent by the OpenAI branch of `/api/chat-with-files`. -/
def filesOpenAIMessages (history : List JsVal) (prompt : String) (texts : List DocText)
    (images : List Image) : Option JsVal :=
  (openaiHistory history).bind (fun turns =>
    sanitizeOpenAIMessages
      (.arr (turns ++ [.obj [("role", .str "user"),
        ("content", .arr (openaiContent prompt texts images))]])))

/-! ## Vocabulary of the statements -/

/-- The turn's content is a string that is non-empty after trimming. -/
def hasContent (m : JsVal) : Bool :=
  match get m "content" with
  | .str s => jsTrim s != ""
  | _ => false

/-- The text of a history turn as both provider variants read it: its `content`
when that is a string, its `text` field otherwise. -/
def turnText (m : JsVal) : JsVal :=
  if (get m "content").isString then get m "content" else get m "text"

/-- The turn's text is a string that is non-empty after trimming. -/
def turnHasText (m : JsVal) : Bool :=
  match turnText m with
  | .str s => jsTrim s != ""
  | _ => false

/-- The turn's text is a string, or a falsy value (absent, `null`, `0`,
`false`): the values on which the folding does not throw. -/
def turnFoldable (m : JsVal) : Bool :=
  match turnText m with
  | .str _ => true
  | v => !v.truthy

/-- The Gemini turn carrying the text of history turn `m`. -/
def geminiTurn (m : JsVal) : JsVal :=
  .obj [("role", .str (if strictEqStr (get m "role") "assistant" then "model" else "user")),
    ("parts", .arr [.obj [("text", turnText m)]])]

/-- The OpenAI message carrying the role and the text of history turn `m`. -/
def openaiTurn (m : JsVal) : JsVal :=
  .obj [("role", get m "role"), ("content", turnText m)]

/-- The document's text is non-empty after trimming. -/
def hasText (t : DocText) : Bool := jsTrim t.text != ""

/-- Concatenation of a list of strings, in order. -/
def concatAll : List String → String
  | [] => ""
  | s :: rest => s ++ concatAll rest

/-- A text block of either provider: it has a string `text` field. -/
def isTextBlock (b : JsVal) : Bool := (get b "text").isString

/-! ## The request handlers

The outside world of a handler is gathered in `Env`: which provider clients
exist, and what each call into a library or a provider yields (`Except.error`
is a thrown exception carrying its message). A handler returns an `Outcome`:
the response, the provider calls it made and the paths it tried to delete. -/

/-- An entry of `req.files`. -/
structure Upload where
  path : String
  originalname : String
  mimetype : String

/-- A call made to a provider, with the temperature in tenths (Gemini calls
pass none). -/
inductive ProviderCall where
  | gemini (contents : List JsVal) : ProviderCall
  | openai (messages : JsVal) (temperatureTenths : Nat) : ProviderCall

/-- The collaborators of the handlers. `openaiKey` and `geminiKey` say whether
the client handles `openai` and `genAI` are non-null; `generateContent` yields
the value of `result.response.text()`; `createCompletion` yields the response
object `r`. -/
structure Env where
  openaiKey : Bool
  geminiKey : Bool
  mimeLookup : String → Option String
  readBase64 : String → Except String String
  toText : String → String → Except String String
  generateContent : List JsVal → Except String JsVal
  createCompletion : JsVal → Nat → Except String JsVal
  unlinkSync : String → Except String Unit

/-- What a handler did. -/
structure Outcome where
  status : Nat
  body : JsVal
  calls : List ProviderCall
  unlinked : List String

/-- What the body of a handler's `try` block reaches: an early `return` of a
response (with the paths cleaned up just before it), or a provider call. -/
inductive Step where
  | respond (status : Nat) (body : JsVal) (unlinked : List String) : Step
  | gemini (contents : List JsVal) : Step
  | openai (messages : JsVal) (temperatureTenths : Nat) : Step

/-- The message of a `TypeError` raised by the handler's own code. -/
def typeError : String := "TypeError"

/-- The body `{ error: msg }`. -/
def errorBody (msg : String) : JsVal := .obj [("error", .str msg)]

/-- The body `{ error: msg, detail }` of a caught failure. -/
def failBody (msg detail : String) : JsVal :=
  .obj [("error", .str msg), ("detail", .str detail)]

/-- The body `{ text }`. -/
def textBody (text : JsVal) : JsVal := .obj [("text", text)]

/-- The expression `v?.[0]`. -/
def firstItem : JsVal → JsVal
  | .arr (x :: _) => x
  | .obj fs => lookup "0" fs
  | .str s =>
    match s.data with
    | c :: _ => .str (String.singleton c)
    | [] => .undefined
  | _ => .undefined

/-- The expression `r.choices?.[0]?.message?.content?.trim() || ''`; `none` is
the `TypeError` of reading `choices` off a nullish `r` or of calling `trim` on
a content that is not a string. -/
def openaiReplyText (r : JsVal) : Option JsVal :=
  match r with
  | .undefined => none
  | .null => none
  | _ =>
    match get (get (firstItem (get r "choices")) "message") "content" with
    | .undefined => some (.str "")
    | .null => some (.str "")
    | .str s => some (jsOr (.str (jsTrim s)) (.str ""))
    | _ => none

/-- The expression `result.response.text() || ''`, on the value of `text()`. -/
def geminiReplyText (t : JsVal) : JsVal := jsOr t (.str "")

/-- What a `try` block comes to when nothing is thrown: an early response, or
the provider's reply text in `answer`. -/
inductive Reply where
  | early (status : Nat) (body : JsVal) (unlinked : List String) : Reply
  | answer (text : JsVal) : Reply

/-- The rest of a `try` block after its `Step`: the provider call and the
extraction of the reply text; the calls made are returned as well. -/
def runStep (env : Env) : Step → Except String Reply × List ProviderCall
  | .respond status body unlinked => (.ok (.early status body unlinked), [])
  | .gemini contents =>
    (match env.generateContent contents with
      | .error e => .error e
      | .ok t => .ok (.answer (geminiReplyText t)),
     [.gemini contents])
  | .openai messages temp =>
    (match env.createCompletion messages temp with
      | .error e => .error e
      | .ok r =>
        match openaiReplyText r with
        | none => .error typeError
        | some t => .ok (.answer t),
     [.openai messages temp])

/-- The loop header `for (const m of v)`: arrays and strings are iterable. -/
def iterate : JsVal → Except String (List JsVal)
  | .arr xs => .ok xs
  | .str s => .ok (s.data.map (fun c => .str (String.singleton c)))
  | _ => .error typeError

/-- The `try` block of `POST /api/chat` up to the provider call. The arguments
are the fields `provider`, `prompt` and `history` of `req.body`. -/
def chatTry (env : Env) (provider prompt history : JsVal) : Except String Step :=
  let provider := match provider with
    | .undefined => .str "openai"
    | v => v
  let history := match history with
    | .undefined => .arr []
    | v => v
  if !prompt.truthy then .ok (.respond 400 (errorBody "Empty prompt") [])
  else
    match prompt with
    | .str s =>
      if jsTrim s = "" then .ok (.respond 400 (errorBody "Empty prompt") [])
      else if strictEqStr provider "gemini" then
        if !env.geminiKey then .ok (.respond 400 (errorBody "Gemini key missing") [])
        else
          match iterate (jsOr history (.arr [])) with
          | .error e => .error e
          | .ok turns =>
            match chatGeminiContents turns s with
            | none => .error typeError
            | some contents => .ok (.gemini contents)
      else
        if !env.openaiKey then .ok (.respond 400 (errorBody "OpenAI key missing") [])
        else
          match history with
          | .arr turns =>
            match chatOpenAIMessages turns s with
            | none => .error typeError
            | some messages => .ok (.openai messages 6)
          | _ => .error typeError
    | _ => .error typeError

/-- Handler `POST /api/chat`. -/
def chatHandler (env : Env) (provider prompt history : JsVal) : Outcome :=
  match chatTry env provider prompt history with
  | .error e => ⟨500, failBody "Chat failed" e, [], []⟩
  | .ok step =>
    match runStep env step with
    | (.ok (.early status body unlinked), calls) => ⟨status, body, calls, unlinked⟩
    | (.ok (.answer text), calls) => ⟨200, textBody text, calls, []⟩
    | (.error e, calls) => ⟨500, failBody "Chat failed" e, calls, []⟩

/-- The callback of `cleanup`: `try { fs.unlinkSync(f.path); } catch {}`. The
deletion is attempted and its result dropped. -/
def tryUnlink (env : Env) (f : Upload) : String :=
  match env.unlinkSync f.path with
  | .ok _ => f.path
  | .error _ => f.path

/-- The call `cleanup()`: the paths on which deletion is attempted. -/
def cleanup (env : Env) (files : List Upload) : List String := files.map (tryUnlink env)

/-- The call `s.startsWith(p)` on character lists. -/
def startsWithChars : List Char → List Char → Bool
  | _, [] => true
  | [], _ :: _ => false
  | c :: cs, q :: qs => c == q && startsWithChars cs qs

/-- The call `s.startsWith(p)`. -/
def jsStartsWith (s p : String) : Bool := startsWithChars s.data p.data

/-- The expression `mime.lookup(f.originalname) || f.mimetype || ''`, as a string. -/
def uploadMimeType (env : Env) (f : Upload) : String :=
  match env.mimeLookup f.originalname with
  | some t => if t != "" then t else f.mimetype
  | none => f.mimetype

/-- One iteration of the attachment loop of `/api/chat-with-files`. -/
def ingestStep (env : Env) (acc : List Image × List DocText) (f : Upload) :
    Except String (List Image × List DocText) :=
  if jsStartsWith (uploadMimeType env f) "image/" then
    match env.readBase64 f.path with
    | .error e => .error e
    | .ok base64 => .ok (acc.1 ++ [⟨f.originalname, base64, uploadMimeType env f⟩], acc.2)
  else
    match env.toText f.path f.originalname with
    | .error e => .error e
    | .ok text =>
      if text != "" && jsTrim text != "" then .ok (acc.1, acc.2 ++ [⟨f.originalname, text⟩])
      else .ok acc

/-- The attachment loop of `/api/chat-with-files`, filling `images` and `texts`. -/
def ingestLoop (env : Env) (acc : List Image × List DocText) :
    List Upload → Except String (List Image × List DocText)
  | [] => .ok acc
  | f :: rest =>
    match ingestStep env acc f with
    | .error e => .error e
    | .ok acc' => ingestLoop env acc' rest

/-- The `try` block of `POST /api/chat-with-files` up to the provider call.
`provider` is `req.body.provider`, `prompt` the string `req.body.prompt` (empty
when the field is absent), `history` the value of the local `history` after the
parsing block (the parsed field, or `[]` when it is absent or not valid JSON)
and `files` is `req.files`. -/
def filesTry (env : Env) (provider : JsVal) (prompt : String) (history : JsVal)
    (files : List Upload) : Except String Step :=
  let provider := jsOr provider (.str "openai")
  if jsTrim prompt = "" && files.length = 0 then
    .ok (.respond 400 (errorBody "Empty prompt") (cleanup env files))
  else
    match ingestLoop env ([], []) files with
    | .error e => .error e
    | .ok (images, texts) =>
      if strictEqStr provider "gemini" then
        if !env.geminiKey then
          .ok (.respond 400 (errorBody "Gemini key missing") (cleanup env files))
        else
          match iterate (jsOr history (.arr [])) with
          | .error e => .error e
          | .ok turns =>
            match filesGeminiContents turns prompt texts images with
            | none => .error typeError
            | some contents => .ok (.gemini contents)
      else
        if !env.openaiKey then
          .ok (.respond 400 (errorBody "OpenAI key missing") (cleanup env files))
        else
          match history with
          | .arr turns =>
            match filesOpenAIMessages turns prompt texts images with
            | none => .error typeError
            | some messages => .ok (.openai messages 6)
          | _ => .error typeError

/-- Handler `POST /api/chat-with-files`: every exit calls `cleanup()`. -/
def filesHandler (env : Env) (provider : JsVal) (prompt : String) (history : JsVal)
    (files : List Upload) : Outcome :=
  match filesTry env provider prompt history files with
  | .error e => ⟨500, failBody "Chat-with-files failed" e, [], cleanup env files⟩
  | .ok step =>
    match runStep env step with
    | (.ok (.early status body unlinked), calls) => ⟨status, body, calls, unlinked⟩
    | (.ok (.answer text), calls) => ⟨200, textBody text, calls, cleanup env files⟩
    | (.error e, calls) =>
      ⟨500, failBody "Chat-with-files failed" e, calls, cleanup env files⟩

/-- One iteration of the attachment loop of `/api/analyze`: every file that is
not an image contributes an entry of `texts`, blank or not. -/
def analyzeIngestStep (env : Env) (acc : List Image × List DocText) (f : Upload) :
    Except String (List Image × List DocText) :=
  if jsStartsWith (uploadMimeType env f) "image/" then
    match env.readBase64 f.path with
    | .error e => .error e
    | .ok base64 => .ok (acc.1 ++ [⟨f.originalname, base64, uploadMimeType env f⟩], acc.2)
  else
    match env.toText f.path f.originalname with
    | .error e => .error e
    | .ok text => .ok (acc.1, acc.2 ++ [⟨f.originalname, text⟩])

/-- The attachment loop of `/api/analyze`. -/
def analyzeIngestLoop (env : Env) (acc : List Image × List DocText) :
    List Upload → Except String (List Image × List DocText)
  | [] => .ok acc
  | f :: rest =>
    match analyzeIngestStep env acc f with
    | .error e => .error e
    | .ok acc' => analyzeIngestLoop env acc' rest

/-- The template that opens the extracted texts in `/api/analyze`. -/
def analyzeIntro (question : String) : String :=
  "You will get extracted text from files. Task: " ++ question ++ "\n\n"

/-- The body of the loop over `texts` in the Gemini branch of `/api/analyze`. -/
def analyzePartStep (parts : List JsVal) (t : DocText) : List JsVal :=
  if jsTrim t.text != "" then parts ++ [textPart (docSection t.filename (jsTrim t.text))]
  else parts

/-- The array `parts` built by the Gemini branch of `/api/analyze`. -/
def analyzeGeminiParts (question : String) (texts : List DocText) (images : List Image) :
    List JsVal :=
  (if texts.length != 0 then texts.foldl analyzePartStep [textPart (analyzeIntro question)]
    else []) ++
  images.map inlineDataPart

/-- The array `content` built by the OpenAI branch of `/api/analyze`. -/
def analyzeOpenAIContent (question : String) (texts : List DocText) (images : List Image) :
    List JsVal :=
  (if texts.length != 0 then [textBlock (texts.foldl combineStep (analyzeIntro question))]
    else []) ++
  images.map imageUrlBlock

/-- The message list `[{ role: 'user', content }]` of the OpenAI branch of
`/api/analyze`, before sanitation. -/
def analyzeOpenAIBuilt (question : String) (texts : List DocText) (images : List Image) :
    List JsVal :=
  [.obj [("role", .str "user"), ("content", .arr (analyzeOpenAIContent question texts images))]]

/-- The `try` block of `POST /api/analyze` up to the provider call. `provider`
is `req.body.provider`, `question` the field `req.body.question` when present. -/
def analyzeTry (env : Env) (provider : JsVal) (question : Option String)
    (files : List Upload) : Except String Step :=
  let provider := match provider with
    | .undefined => .str "openai"
    | v => v
  let question := question.getD "Summarize this file."
  if files.length = 0 then .ok (.respond 400 (errorBody "No files uploaded") [])
  else
    match analyzeIngestLoop env ([], []) files with
    | .error e => .error e
    | .ok (images, texts) =>
      if strictEqStr provider "gemini" then
        if !env.geminiKey then .ok (.respond 400 (errorBody "Gemini key missing") [])
        else
          .ok (.gemini [.obj [("role", .str "user"),
            ("parts", .arr (analyzeGeminiParts question texts images))]])
      else
        if !env.openaiKey then .ok (.respond 400 (errorBody "OpenAI key missing") [])
        else
          match sanitizeOpenAIMessages (.arr (analyzeOpenAIBuilt question texts images)) with
          | none => .error typeError
          | some messages => .ok (.openai messages 4)

/-- Handler `POST /api/analyze`: the files are unlinked on the success path
only. -/
def analyzeHandler (env : Env) (provider : JsVal) (question : Option String)
    (files : List Upload) : Outcome :=
  match analyzeTry env provider question files with
  | .error e => ⟨500, failBody "Analyze failed" e, [], []⟩
  | .ok step =>
    match runStep env step with
    | (.ok (.early status body unlinked), calls) => ⟨status, body, calls, unlinked⟩
    | (.ok (.answer text), calls) => ⟨200, textBody text, calls, cleanup env files⟩
    | (.error e, calls) => ⟨500, failBody "Analyze failed" e, calls, []⟩

/-- The message list built by the OpenAI branch of `/api/chat`, before
sanitation. -/
def chatOpenAIBuilt (history : List JsVal) (prompt : String) : Option (List JsVal) :=
  (openaiHistory history).map (fun turns =>
    turns ++ [.obj [("role", .str "user"), ("content", .str (jsTrim prompt))]])

/-- The message list built by the OpenAI branch of `/api/chat-with-files`,
before sanitation. -/
def filesOpenAIBuilt (history : List JsVal) (prompt : String) (texts : List DocText)
    (images : List Image) : Option (List JsVal) :=
  (openaiHistory history).map (fun turns =>
    turns ++ [.obj [("role", .str "user"),
      ("content", .arr (openaiContent prompt texts images))]])

/-- An environment with both provider clients configured, in which every
library call succeeds, Gemini answers `geminiText` and OpenAI answers with the
response object `openaiResponse`. -/
def sampleEnv (geminiText openaiResponse : JsVal) : Env :=
  { openaiKey := true
    geminiKey := true
    mimeLookup := fun _ => none
    readBase64 := fun _ => .ok "AAAA"
    toText := fun _ _ => .ok ""
    generateContent := fun _ => .ok geminiText
    createCompletion := fun _ _ => .ok openaiResponse
    unlinkSync := fun _ => .ok () }

/-- Whatever a `try` block reaches past the emptiness check: a thrown error, a
provider call, or an early response other than the `Empty prompt` error. -/
def pastEmptyCheck : Except String Step → Prop
  | .error _ => True
  | .ok (.respond _ body _) => body ≠ errorBody "Empty prompt"
  | .ok _ => True

/-- Whether the client of the provider selected by `provider` exists: the
handlers take the Gemini branch when `provider === 'gemini'` and the OpenAI
branch otherwise. -/
def selectedKey (env : Env) (provider : JsVal) : Bool :=
  if strictEqStr provider "gemini" then env.geminiKey else env.openaiKey

/-- The error message naming the missing key of the selected provider. -/
def missingKeyError (provider : JsVal) : String :=
  if strictEqStr provider "gemini" then "Gemini key missing" else "OpenAI key missing"

/-- A `try` block that reaches no provider call. -/
def noCallStep : Except String Step → Prop
  | .ok (.gemini _) => False
  | .ok (.openai _ _) => False
  | _ => True

/-- An environment without any provider credential, in which text extraction
yields `extract`. -/
def noKeyEnv (extract : Except String String) : Env :=
  { openaiKey := false
    geminiKey := false
    mimeLookup := fun _ => none
    readBase64 := fun _ => .ok "AAAA"
    toText := fun _ _ => extract
    generateContent := fun _ => .ok (.str "never asked")
    createCompletion := fun _ _ => .ok .null
    unlinkSync := fun _ => .ok () }

/-! ## Text wrapping (`utils/convert.js`) -/

/-- Whether a character list starts with a white-space character. -/
def startsWithSpace : List Char → Bool
  | [] => false
  | d :: _ => isJsSpace d

/-- The pieces of `s.split(/\s+/)` on a character list: the text is cut at every
maximal run of white space, so a leading or trailing run leaves an empty first
or last piece, and the empty text gives one empty piece. -/
def splitWs : List Char → List (List Char)
  | [] => [[]]
  | c :: cs =>
    if isJsSpace c then
      (if startsWithSpace cs then splitWs cs else [] :: splitWs cs)
    else (c :: (splitWs cs).headD []) :: (splitWs cs).tail

/-- The call `s.split(/\s+/)`. -/
def jsSplitWs (s : String) : List String := (splitWs s.data).map String.mk

/-- The comparison `a > b` of two JavaScript numbers. `none` stands for NaN,
and a comparison with NaN is false; the other numbers (the infinities
included) are totally ordered. -/
def jsGt {α : Type} [LinearOrder α] : Option α → Option α → Bool
  | some a, some b => decide (b < a)
  | _, _ => false

/-- The comparison `a <= b` of two JavaScript numbers, false with NaN. -/
def jsLe {α : Type} [LinearOrder α] : Option α → Option α → Bool
  | some a, some b => decide (a ≤ b)
  | _, _ => false

/-- The body of the loop of `wrapText`, on the state `(lines, line)`:
`const test = (line ? line + ' ' : '') + w;`
`if (width > maxWidth && line) { lines.push(line); line = w; } else { line = test; }`. -/
def wrapStep {α : Type} [LinearOrder α] (measure : String → Option α) (maxWidth : Option α)
    (st : List String × String) (w : String) : List String × String :=
  if jsGt (measure ((if st.2 != "" then st.2 ++ " " else "") ++ w)) maxWidth && st.2 != "" then
    (st.1 ++ [st.2], w)
  else (st.1, (if st.2 != "" then st.2 ++ " " else "") ++ w)

/-- Source `wrapText(text, font, size, maxWidth)`; `measure test` stands for
`font.widthOfTextAtSize(test, size)`. -/
def wrapText {α : Type} [LinearOrder α] (text : String) (measure : String → Option α)
    (maxWidth : Option α) : List String :=
  let st := (jsSplitWs text).foldl (wrapStep measure maxWidth) ([], "")
  if st.2 != "" then st.1 ++ [st.2] else st.1

/-- The whitespace-separated non-empty words of a string, in order. -/
def wordsOf (s : String) : List String := (jsSplitWs s).filter (fun w => w != "")

/-- The non-empty pieces of a character list. -/
def wordsChars (cs : List Char) : List (List Char) :=
  (splitWs cs).filter (fun w => !w.isEmpty)

/-- The break between a line and the next one is forced: the line, extended by
a blank and the first word of the next line, measures more than `maxWidth`. -/
def forcedBreak {α : Type} [LinearOrder α] (measure : String → Option α)
    (maxWidth : Option α) (l next : String) : Prop :=
  ∃ w, (wordsOf next).head? = some w ∧ jsGt (measure (l ++ " " ++ w)) maxWidth = true

/-- In a list of pieces, only the last one may be empty. -/
def onlyLastEmpty : List (List Char) → Prop
  | [] => True
  | [_] => True
  | x :: y :: rest => x ≠ [] ∧ onlyLastEmpty (y :: rest)

/-! ## Sanitizer: basic facts -/

theorem mapOpt_some {α β : Type} (f : α → Option β) (g : α → β)
    (h : ∀ a, f a = some (g a)) (xs : List α) : mapOpt f xs = some (xs.map g) := by
  induction xs with
  | nil => rfl
  | cons x xs ih => simp [mapOpt, h, ih]

theorem lookup_setField_same (k : String) (v : JsVal) (fs : List (String × JsVal)) :
    lookup k (setField k v fs) = v := by
  induction fs with
  | nil => simp [setField, lookup]
  | cons p rest ih =>
    obtain ⟨k', w⟩ := p
    by_cases hk : k' = k
    · simp [setField, lookup, hk]
    · simp [setField, lookup, hk, ih]

theorem lookup_setField_other (k k' : String) (v : JsVal) (fs : List (String × JsVal))
    (hne : k' ≠ k) : lookup k' (setField k v fs) = lookup k' fs := by
  induction fs with
  | nil => simp [setField, lookup, Ne.symm hne]
  | cons p rest ih =>
    obtain ⟨k'', w⟩ := p
    by_cases hk : k'' = k
    · subst hk
      simp [setField, lookup, Ne.symm hne]
    · by_cases hk2 : k'' = k'
      · subst hk2
        simp [setField, lookup, hk]
      · simp [setField, lookup, hk, hk2, ih]

theorem setField_setField (k : String) (v w : JsVal) (fs : List (String × JsVal)) :
    setField k w (setField k v fs) = setField k w fs := by
  induction fs with
  | nil => simp [setField]
  | cons p rest ih =>
    obtain ⟨k', u⟩ := p
    by_cases hk : k' = k
    · simp [setField, hk]
    · simp [setField, hk, ih]

theorem setField_keys (k : String) (v : JsVal) (fs : List (String × JsVal))
    (hk : k ∈ fs.map Prod.fst) : (setField k v fs).map Prod.fst = fs.map Prod.fst := by
  induction fs with
  | nil => simp at hk
  | cons p rest ih =>
    obtain ⟨k', u⟩ := p
    by_cases hk' : k' = k
    · simp [setField, hk']
    · have : k ∈ rest.map Prod.fst := by
        simp only [List.map_cons, List.mem_cons] at hk
        rcases hk with h | h
        · exact absurd h.symm hk'
        · exact h
      simp [setField, hk', ih this]

theorem mem_keys_of_lookup_ne (k : String) (fs : List (String × JsVal))
    (h : lookup k fs ≠ .undefined) : k ∈ fs.map Prod.fst := by
  induction fs with
  | nil => simp [lookup] at h
  | cons p rest ih =>
    obtain ⟨k', u⟩ := p
    by_cases hk : k' = k
    · simp [hk]
    · simp only [lookup, hk, if_false] at h
      simp [ih h]

/-- A sanitized block is left alone by a second pass. -/
theorem sanitizePart_idem (p : JsVal) : sanitizePart (sanitizePart p) = sanitizePart p := by
  have hcanon : ∀ u, sanitizePart (canonicalImage u) = canonicalImage u := by
    intro u
    simp [sanitizePart, canonicalImage, truthy, typeofObject, get, lookup, strictEqStr, isString]
  unfold sanitizePart
  split
  · rename_i h; simp [sanitizePart, h]
  · split
    · exact hcanon _
    · split
      · exact hcanon _
      · rename_i h1 h2 h3
        simp [sanitizePart, h1, h2, h3]

theorem sanitizeOpenAIContent_arr (bs : List JsVal) :
    sanitizeOpenAIContent (.arr bs) = some (.arr (bs.map sanitizePart)) := by
  simp [sanitizeOpenAIContent, jsOr, truthy, jsMap]

theorem sanitizeMessage_eq (m : JsVal) : sanitizeMessage m = some (sanitizeMessageFn m) := by
  cases m with
  | obj fs =>
    simp only [sanitizeMessage, sanitizeMessageFn, truthy, typeofObject, get]
    cases h : lookup "content" fs <;> simp [isArray, sanitizeOpenAIContent_arr]
  | _ => simp [sanitizeMessage, sanitizeMessageFn, truthy, typeofObject, get, isArray]

theorem sanitizeOpenAIMessages_arr (ms : List JsVal) :
    sanitizeOpenAIMessages (.arr ms) = some (.arr (ms.map sanitizeMessageFn)) := by
  simp [sanitizeOpenAIMessages, jsOr, truthy, mapOpt_some _ _ sanitizeMessage_eq]

theorem sanitizeMessageFn_idem (m : JsVal) :
    sanitizeMessageFn (sanitizeMessageFn m) = sanitizeMessageFn m := by
  cases m with
  | obj fs =>
    cases h : lookup "content" fs with
    | arr bs =>
      have hcomp : sanitizePart ∘ sanitizePart = sanitizePart := by
        funext p; exact sanitizePart_idem p
      simp [sanitizeMessageFn, h, lookup_setField_same, setField_setField, hcomp]
    | _ => simp [sanitizeMessageFn, h]
  | _ => simp [sanitizeMessageFn]

/-- C1. Sanitizing is idempotent: on every list of messages (whatever the shape
of each message and of its content) `sanitizeOpenAIMessages` returns a list that
a second pass returns unchanged, and likewise `sanitizeOpenAIContent` on every
list of blocks. -/
theorem sanitize_idempotent :
    (∀ ms : List JsVal, ∃ out, sanitizeOpenAIMessages (.arr ms) = some out ∧
        sanitizeOpenAIMessages out = some out) ∧
    (∀ bs : List JsVal, ∃ out, sanitizeOpenAIContent (.arr bs) = some out ∧
        sanitizeOpenAIContent out = some out) := by
  constructor
  · intro ms
    refine ⟨_, sanitizeOpenAIMessages_arr ms, ?_⟩
    rw [sanitizeOpenAIMessages_arr]
    simp [sanitizeMessageFn_idem]
  · intro bs
    refine ⟨_, sanitizeOpenAIContent_arr bs, ?_⟩
    rw [sanitizeOpenAIContent_arr]
    simp [sanitizePart_idem]

theorem sanitizeOpenAIContent_getElem (bs : List JsVal) (i : Nat) (b : JsVal)
    (hb : bs[i]? = some b) :
    ∃ out, sanitizeOpenAIContent (.arr bs) = some (.arr out) ∧ out.length = bs.length ∧
      out[i]? = some (sanitizePart b) := by
  refine ⟨bs.map sanitizePart, sanitizeOpenAIContent_arr bs, by simp, ?_⟩
  simp [List.getElem?_map, hb]

/-- The callback on an `input_image` object. -/
theorem sanitizePart_input_image (fs : List (String × JsVal))
    (htype : lookup "type" fs = .str "input_image") :
    sanitizePart (.obj fs) = canonicalImage (unwrapUrl (rawUrl (.obj fs))) := by
  simp [sanitizePart, truthy, typeofObject, get, htype, strictEqStr]

/-- C2. An `input_image` block that carries its URL (a string `s`) in exactly
one of the fallback fields `image_url`, `image`, `url`, `data`, the other three
being absent, is sanitized to `{type: 'image_url', image_url: {url: s}}`, at
whatever position of the block list it stands. -/
theorem input_image_single_field (fs : List (String × JsVal)) (f s : String)
    (htype : lookup "type" fs = .str "input_image")
    (hf : f ∈ fallbackFields)
    (hval : lookup f fs = .str s)
    (hothers : ∀ g ∈ fallbackFields, g ≠ f → lookup g fs = .undefined) :
    sanitizePart (.obj fs) = canonicalImage (.str s) ∧
    ∀ (bs : List JsVal) (i : Nat), bs[i]? = some (.obj fs) →
      ∃ out, sanitizeOpenAIContent (.arr bs) = some (.arr out) ∧
        out[i]? = some (canonicalImage (.str s)) := by
  have key : sanitizePart (.obj fs) = canonicalImage (.str s) := by
    rw [sanitizePart_input_image fs htype]
    simp only [fallbackFields, List.mem_cons, List.mem_singleton, List.not_mem_nil,
      or_false] at hf hothers
    by_cases hs : s = ""
    · subst hs
      rcases hf with rfl | rfl | rfl | rfl
      · have h1 := hothers "image" (by simp) (by decide)
        have h2 := hothers "url" (by simp) (by decide)
        have h3 := hothers "data" (by simp) (by decide)
        simp [rawUrl, get, hval, h1, h2, h3, jsOr, truthy, unwrapUrl, isString]
      · have h1 := hothers "image_url" (by simp) (by decide)
        have h2 := hothers "url" (by simp) (by decide)
        have h3 := hothers "data" (by simp) (by decide)
        simp [rawUrl, get, hval, h1, h2, h3, jsOr, truthy, unwrapUrl, isString]
      · have h1 := hothers "image_url" (by simp) (by decide)
        have h2 := hothers "image" (by simp) (by decide)
        have h3 := hothers "data" (by simp) (by decide)
        simp [rawUrl, get, hval, h1, h2, h3, jsOr, truthy, unwrapUrl, isString]
      · have h1 := hothers "image_url" (by simp) (by decide)
        have h2 := hothers "image" (by simp) (by decide)
        have h3 := hothers "url" (by simp) (by decide)
        simp [rawUrl, get, hval, h1, h2, h3, jsOr, truthy, unwrapUrl, isString]
    · rcases hf with rfl | rfl | rfl | rfl
      · simp [rawUrl, get, hval, jsOr, truthy, unwrapUrl, isString, hs]
      · have h1 := hothers "image_url" (by simp) (by decide)
        simp [rawUrl, get, hval, h1, jsOr, truthy, unwrapUrl, isString, hs]
      · have h1 := hothers "image_url" (by simp) (by decide)
        have h2 := hothers "image" (by simp) (by decide)
        simp [rawUrl, get, hval, h1, h2, jsOr, truthy, unwrapUrl, isString, hs]
      · have h1 := hothers "image_url" (by simp) (by decide)
        have h2 := hothers "image" (by simp) (by decide)
        have h3 := hothers "url" (by simp) (by decide)
        simp [rawUrl, get, hval, h1, h2, h3, jsOr, truthy, unwrapUrl, isString, hs]
  refine ⟨key, ?_⟩
  intro bs i hb
  obtain ⟨out, h1, _, h3⟩ := sanitizeOpenAIContent_getElem bs i _ hb
  exact ⟨out, h1, by rw [h3, key]⟩

/-- C2 at a concrete block: `{type: 'input_image', url: 'http://a/b.png'}`
standing second in a list of two blocks. -/
theorem input_image_single_field_witness :
    sanitizePart (.obj [("type", .str "input_image"), ("url", .str "http://a/b.png")])
        = canonicalImage (.str "http://a/b.png") ∧
    ∃ out, sanitizeOpenAIContent (.arr [.str "x",
        .obj [("type", .str "input_image"), ("url", .str "http://a/b.png")]]) = some (.arr out) ∧
      out[1]? = some (canonicalImage (.str "http://a/b.png")) :=
  have h := input_image_single_field
    [("type", .str "input_image"), ("url", .str "http://a/b.png")] "url" "http://a/b.png"
    (by simp [lookup]) (by simp [fallbackFields]) (by simp [lookup])
    (by
      intro g hg hne
      simp only [fallbackFields, List.mem_cons, List.mem_singleton, List.not_mem_nil,
        or_false] at hg
      rcases hg with rfl | rfl | rfl | rfl <;> simp [lookup] at hne ⊢)
  ⟨h.1, h.2 _ 1 (by simp)⟩

/-- C3 as stated fails: on `{type: 'input_image', image_url: '', url: 'http://a/b.png'}`
the field `image_url` is present (the first present fallback field, holding the
empty string), yet the sanitized URL is taken from the later field `url`. -/
theorem first_present_field_counterexample :
    lookup "image_url" [("type", .str "input_image"), ("image_url", .str ""),
        ("url", .str "http://a/b.png")] = .str "" ∧
    specFirstPresentUrl [("type", .str "input_image"), ("image_url", .str ""),
        ("url", .str "http://a/b.png")] = .str "" ∧
    sanitizePart (.obj [("type", .str "input_image"), ("image_url", .str ""),
        ("url", .str "http://a/b.png")]) = canonicalImage (.str "http://a/b.png") ∧
    sanitizePart (.obj [("type", .str "input_image"), ("image_url", .str ""),
        ("url", .str "http://a/b.png")]) ≠
      canonicalImage (specFirstPresentUrl [("type", .str "input_image"), ("image_url", .str ""),
        ("url", .str "http://a/b.png")]) := by
  have h2 : specFirstPresentUrl [("type", .str "input_image"), ("image_url", .str ""),
      ("url", .str "http://a/b.png")] = .str "" := by
    simp [specFirstPresentUrl, fallbackFields, List.find?, lookup]
  have h3 : sanitizePart (.obj [("type", .str "input_image"), ("image_url", .str ""),
      ("url", .str "http://a/b.png")]) = canonicalImage (.str "http://a/b.png") := by
    simp [sanitizePart, truthy, typeofObject, get, lookup, strictEqStr, rawUrl, jsOr,
      unwrapUrl, isString]
  refine ⟨by simp [lookup], h2, h3, ?_⟩
  rw [h2, h3]
  simp [canonicalImage]

/-- C3, amended. For an `input_image` block the URL is recovered from the first
fallback field, in the order `image_url`, `image`, `url`, `data`, whose value is
truthy (a later field is consulted exactly when every earlier one is absent or
falsy). When that value is a string it is the URL; when it is an object whose
`url` is truthy the URL is that nested `url`, taken as it is (one level only);
in every other case the URL is the empty string. -/
theorem input_image_first_truthy (fs : List (String × JsVal)) (pre post : List String)
    (f : String)
    (htype : lookup "type" fs = .str "input_image")
    (hsplit : fallbackFields = pre ++ f :: post)
    (hpre : ∀ g ∈ pre, (lookup g fs).truthy = false)
    (hf : (lookup f fs).truthy = true) :
    sanitizePart (.obj fs) = canonicalImage (unwrapUrl (lookup f fs)) ∧
    (∀ s, lookup f fs = .str s → sanitizePart (.obj fs) = canonicalImage (.str s)) ∧
    (∀ inner, lookup f fs = .obj inner → (lookup "url" inner).truthy = true →
      sanitizePart (.obj fs) = canonicalImage (lookup "url" inner)) ∧
    (∀ inner, lookup f fs = .obj inner → (lookup "url" inner).truthy = false →
      sanitizePart (.obj fs) = canonicalImage (.str "")) ∧
    ((lookup f fs).isString = false → (∀ inner, lookup f fs ≠ .obj inner) →
      sanitizePart (.obj fs) = canonicalImage (.str "")) := by
  have hraw : rawUrl (.obj fs) = lookup f fs := by
    rcases pre with _ | ⟨a, _ | ⟨b, _ | ⟨c, _ | ⟨d, pre⟩⟩⟩⟩
    · simp only [fallbackFields, List.nil_append, List.cons.injEq] at hsplit
      obtain ⟨rfl, -⟩ := hsplit
      simp [rawUrl, get, jsOr, hf]
    · simp only [fallbackFields, List.cons_append, List.nil_append, List.cons.injEq] at hsplit
      obtain ⟨rfl, rfl, -⟩ := hsplit
      have h1 := hpre "image_url" (by simp)
      simp [rawUrl, get, jsOr, hf, h1]
    · simp only [fallbackFields, List.cons_append, List.nil_append, List.cons.injEq] at hsplit
      obtain ⟨rfl, rfl, rfl, -⟩ := hsplit
      have h1 := hpre "image_url" (by simp)
      have h2 := hpre "image" (by simp)
      simp [rawUrl, get, jsOr, hf, h1, h2]
    · simp only [fallbackFields, List.cons_append, List.nil_append, List.cons.injEq] at hsplit
      obtain ⟨rfl, rfl, rfl, rfl, -⟩ := hsplit
      have h1 := hpre "image_url" (by simp)
      have h2 := hpre "image" (by simp)
      have h3 := hpre "url" (by simp)
      simp [rawUrl, get, jsOr, hf, h1, h2, h3]
    · simp [fallbackFields] at hsplit
  have hmain : sanitizePart (.obj fs) = canonicalImage (unwrapUrl (lookup f fs)) := by
    rw [sanitizePart_input_image fs htype, hraw]
  refine ⟨hmain, ?_, ?_, ?_, ?_⟩
  · intro s hs
    rw [hmain, hs]; simp [unwrapUrl, isString]
  · intro inner hin hu
    rw [hmain, hin]; simp [unwrapUrl, isString, get, jsOr, hu]
  · intro inner hin hu
    rw [hmain, hin]; simp [unwrapUrl, isString, get, jsOr, hu]
  · intro hns hno
    rw [hmain]
    cases hv : lookup f fs with
    | obj inner => exact absurd hv (hno inner)
    | str s => rw [hv] at hns; simp [isString] at hns
    | _ => simp [unwrapUrl, isString, get, jsOr, truthy]

/-- C3 amended, at `{type: 'input_image', image_url: '', image: {url: {url: 'u'}}}`:
the falsy `image_url` is passed over and the nested value is unwrapped one
level only. -/
theorem input_image_first_truthy_witness :
    sanitizePart (.obj [("type", .str "input_image"), ("image_url", .str ""),
        ("image", .obj [("url", .obj [("url", .str "u")])])])
      = canonicalImage (.obj [("url", .str "u")]) :=
  (input_image_first_truthy
    [("type", .str "input_image"), ("image_url", .str ""),
      ("image", .obj [("url", .obj [("url", .str "u")])])]
    ["image_url"] ["url", "data"] "image"
    (by simp [lookup]) (by simp [fallbackFields])
    (by intro g hg; simp at hg; subst hg; simp [lookup, truthy])
    (by simp [lookup, truthy])).2.2.1 [("url", .obj [("url", .str "u")])]
    (by simp [lookup]) (by simp [lookup, truthy])

/-- C4. An `input_image` block with none of the fields `image_url`, `image`,
`url`, `data` is sanitized to exactly `{type: 'image_url', image_url: {url: ''}}`;
and `sanitizeOpenAIContent` returns a result (one block per input block) on
every list of blocks, whatever their shape. -/
theorem input_image_no_field (fs : List (String × JsVal))
    (htype : lookup "type" fs = .str "input_image")
    (hnone : ∀ g ∈ fallbackFields, g ∉ fs.map Prod.fst) :
    sanitizePart (.obj fs) = canonicalImage (.str "") ∧
    (∀ bs : List JsVal, ∃ out : List JsVal,
      sanitizeOpenAIContent (.arr bs) = some (.arr out) ∧ out.length = bs.length) := by
  have habs : ∀ g ∈ fallbackFields, lookup g fs = .undefined := by
    intro g hg
    by_contra hne
    exact hnone g hg (mem_keys_of_lookup_ne g fs hne)
  constructor
  · rw [sanitizePart_input_image fs htype]
    have h1 := habs "image_url" (by simp [fallbackFields])
    have h2 := habs "image" (by simp [fallbackFields])
    have h3 := habs "url" (by simp [fallbackFields])
    have h4 := habs "data" (by simp [fallbackFields])
    simp [rawUrl, get, h1, h2, h3, h4, jsOr, truthy, unwrapUrl, isString]
  · intro bs
    exact ⟨bs.map sanitizePart, sanitizeOpenAIContent_arr bs, by simp⟩

/-- C4 at `{type: 'input_image', detail: 'low'}`, and on a list holding `null`,
a number, a string, an empty object and an empty array. -/
theorem input_image_no_field_witness :
    sanitizePart (.obj [("type", .str "input_image"), ("detail", .str "low")])
      = canonicalImage (.str "") ∧
    ∃ out : List JsVal,
      sanitizeOpenAIContent (.arr [.null, .num 3, .str "t", .obj [], .arr []])
        = some (.arr out) ∧ out.length = 5 :=
  have h := input_image_no_field [("type", .str "input_image"), ("detail", .str "low")]
    (by simp [lookup]) (by simp [fallbackFields])
  ⟨h.1, h.2 [.null, .num 3, .str "t", .obj [], .arr []]⟩

/-- C5. A block tagged `image_url` whose `image_url` field is a bare string `s`
is sanitized to `{type: 'image_url', image_url: {url: s}}`, at whatever position
of the block list it stands. -/
theorem image_url_bare_string (fs : List (String × JsVal)) (s : String)
    (htype : lookup "type" fs = .str "image_url")
    (hval : lookup "image_url" fs = .str s) :
    sanitizePart (.obj fs) = canonicalImage (.str s) ∧
    ∀ (bs : List JsVal) (i : Nat), bs[i]? = some (.obj fs) →
      ∃ out, sanitizeOpenAIContent (.arr bs) = some (.arr out) ∧
        out[i]? = some (canonicalImage (.str s)) := by
  have key : sanitizePart (.obj fs) = canonicalImage (.str s) := by
    simp [sanitizePart, truthy, typeofObject, get, htype, hval, strictEqStr, isString]
  refine ⟨key, ?_⟩
  intro bs i hb
  obtain ⟨out, h1, _, h3⟩ := sanitizeOpenAIContent_getElem bs i _ hb
  exact ⟨out, h1, by rw [h3, key]⟩

/-- C5 at `{type: 'image_url', image_url: 'data:image/png;base64,AA', detail: 'low'}`. -/
theorem image_url_bare_string_witness :
    sanitizePart (.obj [("type", .str "image_url"),
        ("image_url", .str "data:image/png;base64,AA"), ("detail", .str "low")])
      = canonicalImage (.str "data:image/png;base64,AA") :=
  (image_url_bare_string
    [("type", .str "image_url"), ("image_url", .str "data:image/png;base64,AA"),
      ("detail", .str "low")] "data:image/png;base64,AA"
    (by simp [lookup]) (by simp [lookup])).1

/-- A block outside the two rewrite conditions is returned as it is. -/
theorem sanitizePart_of_not_rewritten (b : JsVal) (h : isRewritten b = false) :
    sanitizePart b = b := by
  cases b with
  | obj fs =>
    simp only [isRewritten, Bool.or_eq_false_iff] at h
    simp [sanitizePart, truthy, typeofObject, get, h.1, h.2]
  | _ => simp [sanitizePart, truthy, typeofObject, get, strictEqStr]

/-- A block inside one of the two rewrite conditions comes out as an image
reference of the canonical shape. -/
theorem sanitizePart_of_rewritten (b : JsVal) (h : isRewritten b = true) :
    ∃ u, sanitizePart b = canonicalImage u := by
  cases b with
  | obj fs =>
    by_cases h1 : strictEqStr (lookup "type" fs) "input_image" = true
    · refine ⟨unwrapUrl (rawUrl (.obj fs)), ?_⟩
      simp [sanitizePart, truthy, typeofObject, get, h1]
    · have h2 : (strictEqStr (lookup "type" fs) "image_url" &&
          (lookup "image_url" fs).isString) = true := by
        simp only [isRewritten, Bool.or_eq_true] at h
        rcases h with h | h
        · exact absurd h h1
        · exact h
      refine ⟨lookup "image_url" fs, ?_⟩
      simp only [Bool.and_eq_true] at h2
      simp [sanitizePart, truthy, typeofObject, get, h1, h2.1, h2.2]
  | _ => simp [isRewritten] at h

theorem not_rewritten_of_canonical (b : JsVal) (h : isCanonicalBlock b = true) :
    isRewritten b = false := by
  cases b with
  | obj fs =>
    simp only [isCanonicalBlock, get, Bool.or_eq_true, Bool.and_eq_true] at h
    rcases h with ⟨ht, -⟩ | ⟨ht, hu⟩
    · cases hty : lookup "type" fs <;> simp [hty, strictEqStr] at ht
      subst ht
      simp [isRewritten, hty, strictEqStr]
    · cases hty : lookup "type" fs <;> simp [hty, strictEqStr] at ht
      subst ht
      cases him : lookup "image_url" fs <;> simp [him, isString] at hu
      all_goals simp [isRewritten, hty, him, strictEqStr, isString]
  | _ => simp [isRewritten]

/-- C6. The sanitizer changes nothing outside its two rewrite conditions.
`sanitizeOpenAIMessages` returns one message per input message, position by
position; a message whose content is not a list (a plain string in particular)
is returned unmodified; a message with list content keeps its keys in order and
the value of every field other than `content`, and its content keeps one block
per input block, position by position; and every block that is not an object
tagged `input_image` or tagged `image_url` with a string `image_url` is
returned unchanged. -/
theorem sanitizer_frame (ms : List JsVal) :
    ∃ out : List JsVal, sanitizeOpenAIMessages (.arr ms) = some (.arr out) ∧
      out.length = ms.length ∧
      ∀ (i : Nat) (m : JsVal), ms[i]? = some m →
        ∃ m', out[i]? = some m' ∧
          ((get m "content").isArray = false → m' = m) ∧
          (∀ s, get m "content" = .str s → m' = m) ∧
          (∀ fs bs, m = .obj fs → lookup "content" fs = .arr bs →
            ∃ fs' cs, m' = .obj fs' ∧ fs'.map Prod.fst = fs.map Prod.fst ∧
              (∀ k, k ≠ "content" → lookup k fs' = lookup k fs) ∧
              lookup "content" fs' = .arr cs ∧ cs.length = bs.length ∧
              ∀ (j : Nat) (b : JsVal), bs[j]? = some b →
                ∃ c, cs[j]? = some c ∧ (isRewritten b = false → c = b)) := by
  refine ⟨ms.map sanitizeMessageFn, sanitizeOpenAIMessages_arr ms, by simp, ?_⟩
  intro i m hm
  have hnot : (get m "content").isArray = false → sanitizeMessageFn m = m := by
    intro h
    cases m with
    | obj fs =>
      simp only [get] at h
      cases hc : lookup "content" fs <;> simp [sanitizeMessageFn, hc]
      simp [hc, isArray] at h
    | _ => simp [sanitizeMessageFn]
  refine ⟨sanitizeMessageFn m, by simp [List.getElem?_map, hm], hnot, ?_, ?_⟩
  · intro s hs
    exact hnot (by simp [hs, isArray])
  · intro fs bs hfs hc
    subst hfs
    refine ⟨setField "content" (.arr (bs.map sanitizePart)) fs, bs.map sanitizePart,
      by simp [sanitizeMessageFn, hc], ?_, ?_, lookup_setField_same _ _ _, by simp, ?_⟩
    · exact setField_keys _ _ _ (mem_keys_of_lookup_ne _ _ (by simp [hc]))
    · intro k hk
      exact lookup_setField_other _ _ _ _ hk
    · intro j b hb
      refine ⟨sanitizePart b, by simp [List.getElem?_map, hb], ?_⟩
      exact sanitizePart_of_not_rewritten b

/-- C7 as stated fails: the message `{role: 'user', content: ['hello', {type: 'video'}]}`
is returned as it is, and neither of its blocks is a canonical text block or a
canonical image reference. -/
theorem non_canonical_block_counterexample :
    sanitizeOpenAIMessages (.arr [.obj [("role", .str "user"),
        ("content", .arr [.str "hello", .obj [("type", .str "video")]])]])
      = some (.arr [.obj [("role", .str "user"),
        ("content", .arr [.str "hello", .obj [("type", .str "video")]])]]) ∧
    isCanonicalBlock (.str "hello") = false ∧
    isCanonicalBlock (.obj [("type", .str "video")]) = false := by
  refine ⟨?_, ?_, ?_⟩
  · rw [sanitizeOpenAIMessages_arr]
    simp [sanitizeMessageFn, lookup, setField, sanitizePart, truthy, typeofObject, get,
      strictEqStr]
  · simp [isCanonicalBlock, get, strictEqStr]
  · simp [isCanonicalBlock, get, lookup, strictEqStr]

/-- C7, amended. In the output of `sanitizeOpenAIMessages`, for a message whose
content is a list of blocks: a block that arrived tagged `input_image`, or
tagged `image_url` with a string `image_url`, is an image reference of the
canonical shape `{type: 'image_url', image_url: {url}}`; every other block is
the block that arrived, unchanged; so a block that arrived canonical is
canonical in the output. -/
theorem sanitized_blocks_shape (ms : List JsVal) (i : Nat) (fs : List (String × JsVal))
    (bs : List JsVal) (hm : ms[i]? = some (.obj fs)) (hc : lookup "content" fs = .arr bs) :
    ∃ (out : List JsVal) (fs' : List (String × JsVal)) (cs : List JsVal),
      sanitizeOpenAIMessages (.arr ms) = some (.arr out) ∧
      out[i]? = some (.obj fs') ∧ lookup "content" fs' = .arr cs ∧
      cs.length = bs.length ∧
      ∀ (j : Nat) (b : JsVal), bs[j]? = some b →
        ∃ c, cs[j]? = some c ∧
          (isRewritten b = true → ∃ u, c = canonicalImage u) ∧
          (isRewritten b = false → c = b) ∧
          (isCanonicalBlock b = true → isCanonicalBlock c = true) := by
  refine ⟨ms.map sanitizeMessageFn, setField "content" (.arr (bs.map sanitizePart)) fs,
    bs.map sanitizePart, sanitizeOpenAIMessages_arr ms, ?_, lookup_setField_same _ _ _,
    by simp, ?_⟩
  · simp [List.getElem?_map, hm, sanitizeMessageFn, hc]
  · intro j b hb
    refine ⟨sanitizePart b, by simp [List.getElem?_map, hb], sanitizePart_of_rewritten b,
      sanitizePart_of_not_rewritten b, ?_⟩
    intro hcan
    rw [sanitizePart_of_not_rewritten b (not_rewritten_of_canonical b hcan)]
    exact hcan

/-- C7 amended, at `{role: 'user', content: [{type: 'input_image'}, 7]}`: the
first block comes out as an image reference, the second as it arrived. -/
theorem sanitized_blocks_shape_witness :
    ∃ (out : List JsVal) (fs' : List (String × JsVal)) (cs : List JsVal),
      sanitizeOpenAIMessages (.arr [.obj [("role", .str "user"),
        ("content", .arr [.obj [("type", .str "input_image")], .num 7])]]) = some (.arr out) ∧
      out[0]? = some (.obj fs') ∧ lookup "content" fs' = .arr cs ∧
      cs.length = 2 ∧
      ∀ (j : Nat) (b : JsVal),
        [JsVal.obj [("type", .str "input_image")], JsVal.num 7][j]? = some b →
        ∃ c, cs[j]? = some c ∧
          (isRewritten b = true → ∃ u, c = canonicalImage u) ∧
          (isRewritten b = false → c = b) ∧
          (isCanonicalBlock b = true → isCanonicalBlock c = true) :=
  sanitized_blocks_shape
    [.obj [("role", .str "user"),
      ("content", .arr [.obj [("type", .str "input_image")], .num 7])]] 0
    [("role", .str "user"), ("content", .arr [.obj [("type", .str "input_image")], .num 7])]
    [.obj [("type", .str "input_image")], .num 7] (by simp) (by simp [lookup])

/-! ## History folding -/

theorem jsTrim_empty : jsTrim "" = "" := by decide

theorem sanitizePart_canonicalImage (u : JsVal) :
    sanitizePart (canonicalImage u) = canonicalImage u := by
  simp [sanitizePart, canonicalImage, truthy, typeofObject, get, lookup, strictEqStr, isString]

theorem sanitizePart_textBlock (s : String) : sanitizePart (textBlock s) = textBlock s := by
  simp [sanitizePart, textBlock, truthy, typeofObject, get, lookup, strictEqStr]

/-- The sanitizer's callback leaves every block of the built content alone. -/
theorem map_sanitizePart_openaiContent (prompt : String) (texts : List DocText)
    (images : List Image) :
    (openaiContent prompt texts images).map sanitizePart = openaiContent prompt texts images := by
  have himgs : ∀ l : List Image, (l.map imageUrlBlock).map sanitizePart = l.map imageUrlBlock := by
    intro l
    induction l with
    | nil => rfl
    | cons i rest ih =>
      simp only [List.map_cons, ih]
      simp [imageUrlBlock, sanitizePart_canonicalImage]
  have hraw : (openaiContentRaw prompt texts images).map sanitizePart
      = openaiContentRaw prompt texts images := by
    unfold openaiContentRaw
    simp only [List.map_append, himgs]
    congr 1
    congr 1
    · split <;> simp [sanitizePart_textBlock]
    · split <;> simp [sanitizePart_textBlock]
  unfold openaiContent
  split
  · simp [sanitizePart_textBlock]
  · exact hraw

/-! ## The final user turn -/

theorem foldl_combineStep (texts : List DocText) (init : String) :
    texts.foldl combineStep init
      = init ++ concatAll ((texts.filter hasText).map
          (fun t => docSection t.filename (jsTrim t.text))) := by
  induction texts generalizing init with
  | nil => simp [concatAll]
  | cons t rest ih =>
    by_cases ht : hasText t = true
    · have hstep : combineStep init t = init ++ docSection t.filename (jsTrim t.text) := by
        simp only [hasText] at ht
        simp [combineStep, ht]
      simp [List.foldl, List.filter, ht, hstep, ih, concatAll, String.append_assoc]
    · have hstep : combineStep init t = init := by
        simp only [hasText] at ht
        simp [combineStep, ht]
      simp [List.foldl, List.filter, ht, hstep, ih]

/-- C9 as stated fails on the Gemini variant: with prompt `""`, the single
document `a.txt` holding `hi` and no image, the final user turn has two text
blocks (the opening line, then the document), not one. -/
theorem gemini_docs_blocks_counterexample :
    geminiParts "" [⟨"a.txt", "hi"⟩] []
      = [textPart "\nAttached documents (extracted text):\n", textPart "--- a.txt ---\nhi\n"] ∧
    ((geminiParts "" [⟨"a.txt", "hi"⟩] []).filter isTextBlock).length = 2 ∧
    ((geminiParts "" [⟨"a.txt", "hi"⟩] []).filter isTextBlock).length ≠ 1 := by
  have h : geminiParts "" [⟨"a.txt", "hi"⟩] []
      = [textPart "\nAttached documents (extracted text):\n", textPart "--- a.txt ---\nhi\n"] := by
    have h1 : jsTrim "hi" = "hi" := by decide
    have h2 : docSection "a.txt" "hi" = "--- a.txt ---\nhi\n" := by decide
    simp [geminiParts, docsPreamble, h1, h2]
  refine ⟨h, ?_, ?_⟩ <;> rw [h] <;> simp [List.filter, isTextBlock, textPart, get, lookup, isString]

/-- The guard `prompt && prompt.trim()` holds exactly when the trimmed prompt
is non-empty. -/
theorem prompt_guard (prompt : String) :
    (prompt != "" && jsTrim prompt != "") = true ↔ jsTrim prompt ≠ "" := by
  constructor
  · intro h
    simp only [Bool.and_eq_true, bne_iff_ne] at h
    exact h.2
  · intro h
    have hp : prompt ≠ "" := by
      intro he
      exact h (by rw [he]; exact jsTrim_empty)
    simp [hp, h]

theorem openaiContentRaw_of_texts (prompt : String) (texts : List DocText)
    (images : List Image) (hne : texts ≠ []) :
    openaiContentRaw prompt texts images
      = (if jsTrim prompt = "" then [] else [textBlock (jsTrim prompt)]) ++
        [textBlock (docsPreamble ++ concatAll ((texts.filter hasText).map
          (fun t => docSection t.filename (jsTrim t.text))))] ++
        images.map imageUrlBlock := by
  have hlen : (texts.length != 0) = true := by
    cases texts with
    | nil => exact absurd rfl hne
    | cons t rest => simp
  by_cases hp : jsTrim prompt = ""
  · have hg : (prompt != "" && jsTrim prompt != "") = false := by
      rw [Bool.eq_false_iff]
      intro h
      exact (prompt_guard prompt).mp h hp
    simp [openaiContentRaw, hg, hp, hlen, openaiCombined, foldl_combineStep]
  · have hg := (prompt_guard prompt).mpr hp
    simp [openaiContentRaw, hg, hp, hlen, openaiCombined, foldl_combineStep]

/-- C9, amended. With at least one document text, the final user turn of the
attachment-bearing chat path carries, directly after the prompt's text block
(present exactly when the prompt is non-blank) and before the image blocks:
on the OpenAI variant exactly one text block, whose text is the opening line
followed by the sections `--- filename ---\n<trimmed text>\n` of the documents
with non-blank text, in input order; on the Gemini variant one text block
holding the opening line followed by one text block per document, in input
order, each holding that document's section. With prompt `""`, one non-blank
document and no image the turn is exactly that one block on OpenAI and exactly
those two blocks on Gemini; no placeholder block is added. -/
theorem docs_folding (prompt : String) (texts : List DocText) (images : List Image)
    (hne : texts ≠ []) :
    openaiContent prompt texts images
      = (if jsTrim prompt = "" then [] else [textBlock (jsTrim prompt)]) ++
        [textBlock (docsPreamble ++ concatAll ((texts.filter hasText).map
          (fun t => docSection t.filename (jsTrim t.text))))] ++
        images.map imageUrlBlock ∧
    geminiParts prompt texts images
      = (if jsTrim prompt = "" then [] else [textPart (jsTrim prompt)]) ++
        (textPart docsPreamble ::
          texts.map (fun t => textPart (docSection t.filename (jsTrim t.text)))) ++
        images.map inlineDataPart ∧
    (∀ d : DocText, texts = [d] → hasText d = true →
      openaiContent "" texts []
        = [textBlock (docsPreamble ++ docSection d.filename (jsTrim d.text))] ∧
      geminiParts "" texts []
        = [textPart docsPreamble, textPart (docSection d.filename (jsTrim d.text))]) := by
  have hlen : (texts.length != 0) = true := by
    cases texts with
    | nil => exact absurd rfl hne
    | cons t rest => simp
  have hopen : ∀ (p : String) (imgs : List Image), openaiContent p texts imgs
      = (if jsTrim p = "" then [] else [textBlock (jsTrim p)]) ++
        [textBlock (docsPreamble ++ concatAll ((texts.filter hasText).map
          (fun t => docSection t.filename (jsTrim t.text))))] ++
        imgs.map imageUrlBlock := by
    intro p imgs
    unfold openaiContent
    rw [openaiContentRaw_of_texts p texts imgs hne]
    simp
  have hgem : ∀ (p : String) (imgs : List Image), geminiParts p texts imgs
      = (if jsTrim p = "" then [] else [textPart (jsTrim p)]) ++
        (textPart docsPreamble ::
          texts.map (fun t => textPart (docSection t.filename (jsTrim t.text)))) ++
        imgs.map inlineDataPart := by
    intro p imgs
    by_cases hp : jsTrim p = ""
    · have hg : (p != "" && jsTrim p != "") = false := by
        rw [Bool.eq_false_iff]
        intro h
        exact (prompt_guard p).mp h hp
      simp [geminiParts, hg, hp, hlen]
    · have hg := (prompt_guard p).mpr hp
      simp [geminiParts, hg, hp, hlen]
  refine ⟨hopen prompt images, hgem prompt images, ?_⟩
  intro d hd ht
  constructor
  · rw [hopen "" []]
    subst hd
    simp [jsTrim_empty, List.filter, ht, concatAll]
  · rw [hgem "" []]
    subst hd
    simp [jsTrim_empty]

/-- C9 amended, at prompt `Hi`, the documents `a.txt` and `b.txt` and no image,
on the OpenAI variant. -/
theorem docs_folding_witness :
    openaiContent "Hi" [⟨"a.txt", " x "⟩, ⟨"b.txt", "y"⟩] []
      = [textBlock "Hi",
         textBlock "\nAttached documents (extracted text):\n--- a.txt ---\nx\n--- b.txt ---\ny\n"] :=
  (docs_folding "Hi" [⟨"a.txt", " x "⟩, ⟨"b.txt", "y"⟩] [] (by simp)).1.trans
    (by
      have h1 : jsTrim "Hi" = "Hi" := by decide
      have h2 : jsTrim " x " = "x" := by decide
      have h3 : jsTrim "y" = "y" := by decide
      have h4 : docsPreamble ++ (docSection "a.txt" "x" ++ docSection "b.txt" "y")
          = "\nAttached documents (extracted text):\n--- a.txt ---\nx\n--- b.txt ---\ny\n" := by
        decide
      simp [List.filter, hasText, concatAll, h1, h2, h3, h4])

/-- C10. Text-then-images ordering. On both provider variants the final user
turn of the attachment-bearing chat path is a list of text blocks followed by
exactly one image block per image, in input order, each carrying that image's
base64 data and MIME type (a `data:` URI on OpenAI, separate `data` and
`mimeType` fields on Gemini); no image block is a text block; the OpenAI
content is what the sanitizer sends on; and prompt `Hello` with one image gives
exactly the text block `Hello` followed by the image block. -/
theorem text_then_images (prompt : String) (texts : List DocText) (images : List Image) :
    (∃ tb : List JsVal, openaiContent prompt texts images = tb ++ images.map imageUrlBlock ∧
      ∀ b ∈ tb, ∃ s, b = textBlock s) ∧
    (∃ tp : List JsVal, geminiParts prompt texts images = tp ++ images.map inlineDataPart ∧
      ∀ b ∈ tp, ∃ s, b = textPart s) ∧
    (∀ img : Image,
      imageUrlBlock img
        = .obj [("type", .str "image_url"),
            ("image_url", .obj [("url", .str ("data:" ++ img.mimeType ++ ";base64," ++ img.base64))])] ∧
      inlineDataPart img
        = .obj [("inlineData", .obj [("data", .str img.base64), ("mimeType", .str img.mimeType)])] ∧
      isTextBlock (imageUrlBlock img) = false ∧ isTextBlock (inlineDataPart img) = false) ∧
    (∀ s, isTextBlock (textBlock s) = true ∧ isTextBlock (textPart s) = true) ∧
    sanitizeOpenAIContent (.arr (openaiContent prompt texts images))
      = some (.arr (openaiContent prompt texts images)) ∧
    (∀ img : Image,
      openaiContent "Hello" [] [img] = [textBlock "Hello", imageUrlBlock img] ∧
      geminiParts "Hello" [] [img] = [textPart "Hello", inlineDataPart img]) := by
  have hHello : jsTrim "Hello" = "Hello" := by decide
  refine ⟨?_, ?_, ?_, ?_, ?_, ?_⟩
  · by_cases hlen : (openaiContentRaw prompt texts images).length = 0
    · have himg : images = [] := by
        cases images with
        | nil => rfl
        | cons i rest => simp [openaiContentRaw] at hlen
      refine ⟨[textBlock "(no content)"], ?_, ?_⟩
      · rw [openaiContent, if_pos hlen, himg]
        simp
      · intro b hb
        exact ⟨_, List.mem_singleton.mp hb⟩
    · refine ⟨(if prompt != "" && jsTrim prompt != "" then [textBlock (jsTrim prompt)] else []) ++
        (if texts.length != 0 then [textBlock (openaiCombined texts)] else []), ?_, ?_⟩
      · rw [openaiContent, if_neg hlen]
        rfl
      · intro b hb
        rcases List.mem_append.mp hb with h | h
        · split at h
          · exact ⟨_, List.mem_singleton.mp h⟩
          · simp at h
        · split at h
          · exact ⟨_, List.mem_singleton.mp h⟩
          · simp at h
  · refine ⟨(if prompt != "" && jsTrim prompt != "" then [textPart (jsTrim prompt)] else []) ++
      (if texts.length != 0 then
        textPart docsPreamble ::
          texts.map (fun t => textPart (docSection t.filename (jsTrim t.text)))
      else []), ?_, ?_⟩
    · simp [geminiParts]
    · intro b hb
      rcases List.mem_append.mp hb with h | h
      · split at h
        · exact ⟨_, List.mem_singleton.mp h⟩
        · simp at h
      · split at h
        · rcases List.mem_cons.mp h with h | h
          · exact ⟨_, h⟩
          · obtain ⟨t, -, ht⟩ := List.mem_map.mp h
            exact ⟨_, ht.symm⟩
        · simp at h
  · intro img
    refine ⟨rfl, rfl, ?_, ?_⟩
    · simp [isTextBlock, imageUrlBlock, canonicalImage, get, lookup, isString]
    · simp [isTextBlock, inlineDataPart, get, lookup, isString]
  · intro s
    constructor
    · simp [isTextBlock, textBlock, get, lookup, isString]
    · simp [isTextBlock, textPart, get, lookup, isString]
  · rw [sanitizeOpenAIContent_arr, map_sanitizePart_openaiContent]
  · intro img
    constructor
    · simp [openaiContent, openaiContentRaw, hHello]
    · simp [geminiParts, hHello]

/-! ## Sanitation of the built messages -/

theorem mem_of_mapOpt {α β : Type} (f : α → Option β) (xs : List α) (ys : List β)
    (h : mapOpt f xs = some ys) : ∀ y ∈ ys, ∃ x ∈ xs, f x = some y := by
  induction xs generalizing ys with
  | nil =>
    simp only [mapOpt, Option.some.injEq] at h
    subst h
    simp
  | cons x rest ih =>
    simp only [mapOpt] at h
    cases hx : f x with
    | none => simp [hx] at h
    | some y0 =>
      cases hr : mapOpt f rest with
      | none => simp [hx, hr] at h
      | some ys0 =>
        simp only [hx, hr, Option.map_some', Option.some.injEq] at h
        subst h
        intro y hy
        rcases List.mem_cons.mp hy with rfl | hy
        · exact ⟨x, by simp, hx⟩
        · obtain ⟨x', hx', hfx'⟩ := ih ys0 hr y hy
          exact ⟨x', by simp [hx'], hfx'⟩

/-- A message returned by the history callback has string content or is `null`;
the sanitizer returns it as it is. -/
theorem sanitizeMessageFn_of_historyTurn (m t : JsVal) (h : openaiHistoryTurn m = some t) :
    sanitizeMessageFn t = t := by
  unfold openaiHistoryTurn at h
  split at h
  · split at h
    · simp only [Option.some.injEq] at h
      subst h
      rfl
    · simp only [Option.some.injEq] at h
      subst h
      simp [sanitizeMessageFn, lookup]
  · simp at h

theorem map_sanitizeMessageFn_history (h turns : List JsVal)
    (ht : openaiHistory h = some turns) : turns.map sanitizeMessageFn = turns := by
  unfold openaiHistory at ht
  cases hm : mapOpt openaiHistoryTurn h with
  | none => simp [hm] at ht
  | some ys =>
    simp only [hm, Option.map_some', Option.some.injEq] at ht
    subst ht
    have hall : ∀ t ∈ ys.filter truthy, sanitizeMessageFn t = t := by
      intro t htm
      obtain ⟨m, -, hmt⟩ := mem_of_mapOpt _ _ _ hm t (List.mem_of_mem_filter htm)
      exact sanitizeMessageFn_of_historyTurn m t hmt
    calc (ys.filter truthy).map sanitizeMessageFn
        = (ys.filter truthy).map id := List.map_congr_left hall
      _ = ys.filter truthy := List.map_id _

theorem map_sanitizePart_analyzeContent (question : String) (texts : List DocText)
    (images : List Image) :
    (analyzeOpenAIContent question texts images).map sanitizePart
      = analyzeOpenAIContent question texts images := by
  have himgs : ∀ l : List Image, (l.map imageUrlBlock).map sanitizePart = l.map imageUrlBlock := by
    intro l
    induction l with
    | nil => rfl
    | cons i rest ih =>
      simp only [List.map_cons, ih]
      simp [imageUrlBlock, sanitizePart_canonicalImage]
  unfold analyzeOpenAIContent
  simp only [List.map_append, himgs]
  congr 1
  split <;> simp [sanitizePart_textBlock]

/-- C17. Sanitation is the identity on what the adapter builds. Whenever the
OpenAI branch of `/api/chat` or of `/api/chat-with-files` builds its message
list without throwing (for a history of any shape), `sanitizeOpenAIMessages`
returns that very list, and so it does on the list built by `/api/analyze`;
the messages sent are therefore the messages built. -/
theorem sanitation_identity_on_built (h : List JsVal) (prompt question : String)
    (texts : List DocText) (images : List Image) :
    (∀ built, chatOpenAIBuilt h prompt = some built →
      sanitizeOpenAIMessages (.arr built) = some (.arr built)) ∧
    (∀ built, filesOpenAIBuilt h prompt texts images = some built →
      sanitizeOpenAIMessages (.arr built) = some (.arr built)) ∧
    sanitizeOpenAIMessages (.arr (analyzeOpenAIBuilt question texts images))
      = some (.arr (analyzeOpenAIBuilt question texts images)) ∧
    chatOpenAIMessages h prompt = (chatOpenAIBuilt h prompt).map .arr ∧
    filesOpenAIMessages h prompt texts images
      = (filesOpenAIBuilt h prompt texts images).map .arr := by
  have hchat : ∀ turns, openaiHistory h = some turns →
      sanitizeOpenAIMessages (.arr (turns ++
        [.obj [("role", .str "user"), ("content", .str (jsTrim prompt))]]))
      = some (.arr (turns ++
        [.obj [("role", .str "user"), ("content", .str (jsTrim prompt))]])) := by
    intro turns ht
    rw [sanitizeOpenAIMessages_arr, List.map_append, map_sanitizeMessageFn_history h turns ht]
    simp [sanitizeMessageFn, lookup]
  have hfiles : ∀ turns, openaiHistory h = some turns →
      sanitizeOpenAIMessages (.arr (turns ++
        [.obj [("role", .str "user"), ("content", .arr (openaiContent prompt texts images))]]))
      = some (.arr (turns ++
        [.obj [("role", .str "user"),
          ("content", .arr (openaiContent prompt texts images))]])) := by
    intro turns ht
    rw [sanitizeOpenAIMessages_arr, List.map_append, map_sanitizeMessageFn_history h turns ht]
    simp [sanitizeMessageFn, lookup, setField, map_sanitizePart_openaiContent]
  refine ⟨?_, ?_, ?_, ?_, ?_⟩
  · intro built hb
    unfold chatOpenAIBuilt at hb
    cases ht : openaiHistory h with
    | none => simp [ht] at hb
    | some turns =>
      simp only [ht, Option.map_some', Option.some.injEq] at hb
      subst hb
      exact hchat turns ht
  · intro built hb
    unfold filesOpenAIBuilt at hb
    cases ht : openaiHistory h with
    | none => simp [ht] at hb
    | some turns =>
      simp only [ht, Option.map_some', Option.some.injEq] at hb
      subst hb
      exact hfiles turns ht
  · rw [sanitizeOpenAIMessages_arr]
    simp [analyzeOpenAIBuilt, sanitizeMessageFn, lookup, setField,
      map_sanitizePart_analyzeContent]
  · unfold chatOpenAIMessages chatOpenAIBuilt
    cases ht : openaiHistory h with
    | none => simp
    | some turns => simp [hchat turns ht]
  · unfold filesOpenAIMessages filesOpenAIBuilt
    cases ht : openaiHistory h with
    | none => simp
    | some turns => simp [hfiles turns ht]

/-- C17 at a history holding a turn without content, a blank turn and a turn
that only has a `text` field, with prompt `next`. -/
theorem sanitation_identity_on_built_witness :
    sanitizeOpenAIMessages (.arr [
        .obj [("role", .undefined), ("content", .str "yo")],
        .obj [("role", .str "user"), ("content", .str "next")]])
      = some (.arr [
        .obj [("role", .undefined), ("content", .str "yo")],
        .obj [("role", .str "user"), ("content", .str "next")]]) :=
  (sanitation_identity_on_built
    [.null, .obj [("role", .str "user"), ("content", .str "  ")], .obj [("text", .str "yo")]]
    "next" "" [] []).1 _
    (by
      have h1 : jsTrim "  " = "" := by decide
      have h2 : jsTrim "yo" = "yo" := by decide
      have h3 : jsTrim "" = "" := by decide
      have h4 : jsTrim "next" = "next" := by decide
      simp [chatOpenAIBuilt, openaiHistory, mapOpt, openaiHistoryTurn, get, lookup, isString,
        jsOr, truthy, h1, h2, h3, h4, List.filter])

/-! ## Reply extraction -/

/-- C16, the code at the failing input: the Gemini reply ` hi ` is returned
with its surrounding blanks, by the extraction and by `/api/chat`,
`/api/chat-with-files` and `/api/analyze` alike, whereas the same handlers on
the OpenAI branch return the OpenAI content ` hi ` trimmed. -/
theorem gemini_reply_untrimmed :
    geminiReplyText (.str " hi ") = .str " hi " ∧
    geminiReplyText (.str " hi ") ≠ .str (jsTrim " hi ") ∧
    (chatHandler (sampleEnv (.str " hi ") .null) (.str "gemini") (.str "q") (.arr [])).body
      = textBody (.str " hi ") ∧
    (filesHandler (sampleEnv (.str " hi ") .null) (.str "gemini") "q" (.arr []) []).body
      = textBody (.str " hi ") ∧
    (analyzeHandler (sampleEnv (.str " hi ") .null) (.str "gemini") none
        [⟨"uploads/1", "a.txt", "text/plain"⟩]).body
      = textBody (.str " hi ") ∧
    (chatHandler
        (sampleEnv .null (.obj [("choices", .arr [.obj [("message",
          .obj [("content", .str " hi ")])]])]))
        (.str "openai") (.str "q") (.arr [])).body
      = textBody (.str "hi") := by
  have h1 : jsTrim " hi " = "hi" := by decide
  have h2 : jsTrim "q" = "q" := by decide
  have h3 : jsStartsWith "text/plain" "image/" = false := by decide
  refine ⟨by simp [geminiReplyText, jsOr, truthy], ?_, ?_, ?_, ?_, ?_⟩
  · rw [h1]
    simp [geminiReplyText, jsOr, truthy]
  · simp [chatHandler, chatTry, sampleEnv, truthy, h2, strictEqStr, iterate, jsOr,
      chatGeminiContents, geminiHistoryLoop, runStep, geminiReplyText]
  · simp [filesHandler, filesTry, sampleEnv, h2, ingestLoop, strictEqStr, iterate, jsOr,
      truthy, filesGeminiContents, geminiHistoryLoop, runStep, geminiReplyText]
  · simp [analyzeHandler, analyzeTry, sampleEnv, analyzeIngestLoop, analyzeIngestStep,
      uploadMimeType, h3, strictEqStr, runStep, geminiReplyText, jsOr, truthy]
  · simp [chatHandler, chatTry, sampleEnv, truthy, h1, h2, strictEqStr, chatOpenAIMessages,
      openaiHistory, mapOpt, sanitizeOpenAIMessages_arr, sanitizeMessageFn, lookup, runStep,
      openaiReplyText, get, firstItem, jsOr]

/-- Reply extraction as the handlers perform it. On the OpenAI branch the text is
the content of the first choice's message with leading and trailing white space
trimmed, and the empty string when the choices, the message or the content are
missing or the content is empty. On the Gemini branch the text is the value of
`text()` as it is, and the empty string when that is falsy. On every path the
successful response is `{text}` with the text so extracted, status 200. -/
theorem reply_extraction (env : Env) :
    (∀ (r : JsVal) (s : String), r ≠ .undefined → r ≠ .null →
      get (get (firstItem (get r "choices")) "message") "content" = .str s →
      openaiReplyText r = some (.str (jsTrim s))) ∧
    (∀ r : JsVal, r ≠ .undefined → r ≠ .null →
      (get (get (firstItem (get r "choices")) "message") "content" = .undefined ∨
        get (get (firstItem (get r "choices")) "message") "content" = .null) →
      openaiReplyText r = some (.str "")) ∧
    (∀ s : String, geminiReplyText (.str s) = .str s) ∧
    (∀ t : JsVal, t.truthy = false → geminiReplyText t = .str "") ∧
    (∀ (messages : JsVal) (temp : Nat) (r t : JsVal),
      env.createCompletion messages temp = .ok r → openaiReplyText r = some t →
      runStep env (.openai messages temp) = (.ok (.answer t), [.openai messages temp])) ∧
    (∀ (contents : List JsVal) (t : JsVal), env.generateContent contents = .ok t →
      runStep env (.gemini contents)
        = (.ok (.answer (geminiReplyText t)), [.gemini contents])) ∧
    (∀ (provider prompt history : JsVal) (step : Step) (text : JsVal)
      (calls : List ProviderCall),
      chatTry env provider prompt history = .ok step →
      runStep env step = (.ok (.answer text), calls) →
      chatHandler env provider prompt history = ⟨200, textBody text, calls, []⟩) ∧
    (∀ (provider : JsVal) (prompt : String) (history : JsVal) (files : List Upload)
      (step : Step) (text : JsVal) (calls : List ProviderCall),
      filesTry env provider prompt history files = .ok step →
      runStep env step = (.ok (.answer text), calls) →
      filesHandler env provider prompt history files
        = ⟨200, textBody text, calls, cleanup env files⟩) ∧
    (∀ (provider : JsVal) (question : Option String) (files : List Upload)
      (step : Step) (text : JsVal) (calls : List ProviderCall),
      analyzeTry env provider question files = .ok step →
      runStep env step = (.ok (.answer text), calls) →
      analyzeHandler env provider question files
        = ⟨200, textBody text, calls, cleanup env files⟩) := by
  refine ⟨?_, ?_, ?_, ?_, ?_, ?_, ?_, ?_, ?_⟩
  · intro r s h1 h2 hc
    have hor : jsOr (.str (jsTrim s)) (.str "") = .str (jsTrim s) := by
      by_cases ht : jsTrim s = ""
      · simp [jsOr, truthy, ht]
      · simp [jsOr, truthy, ht]
    cases r <;> simp_all [openaiReplyText]
  · intro r h1 h2 hc
    rcases hc with hc | hc <;> cases r <;> simp_all [openaiReplyText]
  · intro s
    by_cases hs : s = ""
    · simp [geminiReplyText, jsOr, truthy, hs]
    · simp [geminiReplyText, jsOr, truthy, hs]
  · intro t ht
    simp [geminiReplyText, jsOr, ht]
  · intro messages temp r t hr ht
    simp [runStep, hr, ht]
  · intro contents t ht
    simp [runStep, ht]
  · intro provider prompt history step text calls ht hr
    simp [chatHandler, ht, hr]
  · intro provider prompt history files step text calls ht hr
    simp [filesHandler, ht, hr]
  · intro provider question files step text calls ht hr
    simp [analyzeHandler, ht, hr]

/-- Reply extraction at an OpenAI response whose first choice holds ` ok `. -/
theorem reply_extraction_at_ok :
    openaiReplyText (.obj [("choices", .arr [.obj [("message",
        .obj [("role", .str "assistant"), ("content", .str " ok ")])]])])
      = some (.str "ok") :=
  ((reply_extraction (sampleEnv .null .null)).1
    (.obj [("choices", .arr [.obj [("message",
        .obj [("role", .str "assistant"), ("content", .str " ok ")])]])]) " ok "
    (by simp) (by simp) (by simp [get, lookup, firstItem])).trans
    (congrArg (fun s => some (JsVal.str s)) (by decide))

/-! ## The emptiness check -/

theorem failBody_ne_errorBody (msg detail e : String) : failBody msg detail ≠ errorBody e := by
  simp [failBody, errorBody]

theorem textBody_ne_errorBody (t : JsVal) (e : String) : textBody t ≠ errorBody e := by
  simp [textBody, errorBody]

/-- The body of a response built from a `try` block that got past the emptiness
check is not the `Empty prompt` error, whatever the provider does. -/
theorem body_of_pastEmptyCheck (env : Env) (t : Except String Step) (h : pastEmptyCheck t) :
    ∀ (status : Nat) (body : JsVal) (unlinked : List String) (calls : List ProviderCall)
      (step : Step), t = .ok step →
      runStep env step = (.ok (.early status body unlinked), calls) →
      body ≠ errorBody "Empty prompt" := by
  intro status body unlinked calls step ht hr
  subst ht
  cases step with
  | respond st b u =>
    simp only [runStep, Prod.mk.injEq, Except.ok.injEq, Reply.early.injEq] at hr
    obtain ⟨⟨-, hb, -⟩, -⟩ := hr
    subst hb
    exact h
  | gemini contents =>
    simp only [runStep, Prod.mk.injEq] at hr
    cases hg : env.generateContent contents <;> simp [hg] at hr
  | openai messages temp =>
    simp only [runStep, Prod.mk.injEq] at hr
    cases hg : env.createCompletion messages temp with
    | error e => simp [hg] at hr
    | ok r => cases ho : openaiReplyText r <;> simp [hg, ho] at hr

theorem chatTry_pastEmptyCheck (env : Env) (provider history : JsVal) (s : String)
    (hs : jsTrim s ≠ "") : pastEmptyCheck (chatTry env provider (.str s) history) := by
  have hne : s ≠ "" := by
    intro he
    exact hs (by rw [he]; exact jsTrim_empty)
  have h0 : (!(JsVal.str s).truthy) = false := by simp [truthy, hne]
  unfold chatTry
  simp only [h0, Bool.false_eq_true, if_false, hs]
  by_cases hp : strictEqStr (match provider with
      | .undefined => .str "openai"
      | v => v) "gemini" = true
  · simp only [hp, if_true]
    by_cases hk : env.geminiKey = true
    · simp only [hk, Bool.not_true, Bool.false_eq_true, if_false]
      cases hi : iterate (jsOr (match history with
          | .undefined => .arr []
          | v => v) (.arr [])) with
      | error e => trivial
      | ok turns =>
        cases hc : chatGeminiContents turns s with
        | none => simp [hc, pastEmptyCheck]
        | some contents => simp [hc, pastEmptyCheck]
    · simp only [hk, Bool.not_false, if_true]
      simp [pastEmptyCheck, errorBody]
  · simp only [hp, Bool.false_eq_true, if_false]
    by_cases hk : env.openaiKey = true
    · simp only [hk, Bool.not_true, Bool.false_eq_true, if_false]
      split
      · split <;> trivial
      · trivial
    · simp only [hk, Bool.not_false, if_true]
      simp [pastEmptyCheck, errorBody]

theorem filesTry_pastEmptyCheck (env : Env) (provider : JsVal) (prompt : String)
    (history : JsVal) (files : List Upload) (h : jsTrim prompt ≠ "" ∨ files ≠ []) :
    pastEmptyCheck (filesTry env provider prompt history files) := by
  have hcond : (decide (jsTrim prompt = "") && decide (files.length = 0)) = false := by
    rcases h with h | h
    · simp [h]
    · simp [h]
  unfold filesTry
  simp only [hcond, Bool.false_eq_true, if_false]
  cases hin : ingestLoop env ([], []) files with
  | error e => trivial
  | ok acc =>
    obtain ⟨images, texts⟩ := acc
    simp only []
    by_cases hp : strictEqStr (jsOr provider (.str "openai")) "gemini" = true
    · simp only [hp, if_true]
      by_cases hk : env.geminiKey = true
      · simp only [hk, Bool.not_true, Bool.false_eq_true, if_false]
        cases hi : iterate (jsOr history (.arr [])) with
        | error e => trivial
        | ok turns =>
          cases hc : filesGeminiContents turns prompt texts images with
          | none => simp [hc, pastEmptyCheck]
          | some contents => simp [hc, pastEmptyCheck]
      · simp only [hk, Bool.not_false, if_true]
        simp [pastEmptyCheck, errorBody]
    · simp only [hp, Bool.false_eq_true, if_false]
      by_cases hk : env.openaiKey = true
      · simp only [hk, Bool.not_true, Bool.false_eq_true, if_false]
        split
        · split <;> trivial
        · trivial
      · simp only [hk, Bool.not_false, if_true]
        simp [pastEmptyCheck, errorBody]

theorem chatHandler_body_ne (env : Env) (provider prompt history : JsVal)
    (h : pastEmptyCheck (chatTry env provider prompt history)) :
    (chatHandler env provider prompt history).body ≠ errorBody "Empty prompt" := by
  unfold chatHandler
  cases ht : chatTry env provider prompt history with
  | error e => exact failBody_ne_errorBody _ _ _
  | ok step =>
    dsimp only
    cases hr : runStep env step with
    | mk res calls =>
      cases res with
      | error e => exact failBody_ne_errorBody _ _ _
      | ok reply =>
        cases reply with
        | answer text => exact textBody_ne_errorBody _ _
        | early status body unlinked =>
          exact body_of_pastEmptyCheck env _ h status body unlinked calls step ht hr

theorem filesHandler_body_ne (env : Env) (provider : JsVal) (prompt : String)
    (history : JsVal) (files : List Upload)
    (h : pastEmptyCheck (filesTry env provider prompt history files)) :
    (filesHandler env provider prompt history files).body ≠ errorBody "Empty prompt" := by
  unfold filesHandler
  cases ht : filesTry env provider prompt history files with
  | error e => exact failBody_ne_errorBody _ _ _
  | ok step =>
    dsimp only
    cases hr : runStep env step with
    | mk res calls =>
      cases res with
      | error e => exact failBody_ne_errorBody _ _ _
      | ok reply =>
        cases reply with
        | answer text => exact textBody_ne_errorBody _ _
        | early status body unlinked =>
          exact body_of_pastEmptyCheck env _ h status body unlinked calls step ht hr

/-- C11. A request whose prompt is missing, empty or whitespace-only and that
has no attachment is answered by `/api/chat` and by `/api/chat-with-files` with
the 400 `Empty prompt` error and without any provider call, whatever the
provider identifier, the credentials and the history; and a request with a
non-blank prompt, or with at least one attachment, is never answered with that
error. -/
theorem empty_request (env : Env) (provider history : JsVal) :
    (∀ p : JsVal, (p.truthy = false ∨ ∃ s, p = .str s ∧ jsTrim s = "") →
      chatHandler env provider p history = ⟨400, errorBody "Empty prompt", [], []⟩) ∧
    (∀ prompt : String, jsTrim prompt = "" →
      filesHandler env provider prompt history []
        = ⟨400, errorBody "Empty prompt", [], []⟩) ∧
    (∀ s : String, jsTrim s ≠ "" →
      (chatHandler env provider (.str s) history).body ≠ errorBody "Empty prompt") ∧
    (∀ (prompt : String) (files : List Upload), (jsTrim prompt ≠ "" ∨ files ≠ []) →
      (filesHandler env provider prompt history files).body ≠ errorBody "Empty prompt") := by
  refine ⟨?_, ?_, ?_, ?_⟩
  · intro p hp
    rcases hp with hp | ⟨s, rfl, hs⟩
    · simp [chatHandler, chatTry, hp, runStep]
    · by_cases he : s = ""
      · simp [chatHandler, chatTry, truthy, he, runStep]
      · simp [chatHandler, chatTry, truthy, he, hs, runStep]
  · intro prompt hp
    simp [filesHandler, filesTry, hp, runStep, cleanup]
  · intro s hs
    exact chatHandler_body_ne env provider _ history (chatTry_pastEmptyCheck env provider history s hs)
  · intro prompt files h
    exact filesHandler_body_ne env provider prompt history files
      (filesTry_pastEmptyCheck env provider prompt history files h)

/-- C11 at a whitespace-only prompt without attachment, with both credentials
configured and provider `gemini`. -/
theorem empty_request_witness :
    chatHandler (sampleEnv (.str "x") .null) (.str "gemini") (.str " \t\n") (.arr [])
      = ⟨400, errorBody "Empty prompt", [], []⟩ ∧
    filesHandler (sampleEnv (.str "x") .null) (.str "gemini") " \t\n" (.arr []) []
      = ⟨400, errorBody "Empty prompt", [], []⟩ :=
  ⟨(empty_request (sampleEnv (.str "x") .null) (.str "gemini") (.arr [])).1 (.str " \t\n")
      (Or.inr ⟨" \t\n", rfl, by decide⟩),
   (empty_request (sampleEnv (.str "x") .null) (.str "gemini") (.arr [])).2.1 " \t\n"
      (by decide)⟩

/-! ## Provider selection and missing credentials -/

theorem strictEqStr_default (provider : JsVal) :
    strictEqStr (match provider with
      | .undefined => .str "openai"
      | v => v) "gemini" = strictEqStr provider "gemini" := by
  cases provider <;> simp [strictEqStr]

theorem strictEqStr_jsOr (provider : JsVal) :
    strictEqStr (jsOr provider (.str "openai")) "gemini" = strictEqStr provider "gemini" := by
  cases provider with
  | str s =>
    by_cases hs : s = ""
    · subst hs
      simp [jsOr, truthy, strictEqStr]
    · simp [jsOr, truthy, hs]
  | bool b => cases b <;> simp [jsOr, truthy, strictEqStr]
  | num n =>
    by_cases hn : n = 0
    · simp [jsOr, truthy, strictEqStr, hn]
    · simp [jsOr, truthy, hn]
  | _ => simp [jsOr, truthy, strictEqStr]

/-- A `try` block that reaches no provider call makes none. -/
theorem runStep_calls_of_noCall (env : Env) (step : Step) (h : noCallStep (.ok step)) :
    (runStep env step).2 = [] := by
  cases step with
  | respond st b u => rfl
  | gemini contents => exact absurd h (by simp [noCallStep])
  | openai messages temp => exact absurd h (by simp [noCallStep])

theorem chatTry_noCall (env : Env) (provider prompt history : JsVal)
    (hmiss : selectedKey env provider = false) :
    noCallStep (chatTry env provider prompt history) := by
  unfold chatTry
  by_cases hp : prompt.truthy = true
  · simp only [hp, Bool.not_true, Bool.false_eq_true, if_false]
    cases prompt with
    | str s =>
      simp only [strictEqStr_default]
      by_cases hs : jsTrim s = ""
      · simp [hs, noCallStep]
      · simp only [hs, if_false]
        by_cases hg : strictEqStr provider "gemini" = true
        · have hk : env.geminiKey = false := by simpa [selectedKey, hg] using hmiss
          simp [hg, hk, noCallStep]
        · have hk : env.openaiKey = false := by simpa [selectedKey, hg] using hmiss
          simp [hg, hk, noCallStep]
    | _ => simp [noCallStep]
  · simp [hp, noCallStep]

theorem filesTry_noCall (env : Env) (provider : JsVal) (prompt : String) (history : JsVal)
    (files : List Upload) (hmiss : selectedKey env provider = false) :
    noCallStep (filesTry env provider prompt history files) := by
  unfold filesTry
  simp only [strictEqStr_jsOr]
  split
  · simp [noCallStep]
  · cases hin : ingestLoop env ([], []) files with
    | error e => simp [noCallStep]
    | ok acc =>
      obtain ⟨images, texts⟩ := acc
      by_cases hg : strictEqStr provider "gemini" = true
      · have hk : env.geminiKey = false := by simpa [selectedKey, hg] using hmiss
        simp [hg, hk, noCallStep]
      · have hk : env.openaiKey = false := by simpa [selectedKey, hg] using hmiss
        simp [hg, hk, noCallStep]

theorem analyzeTry_noCall (env : Env) (provider : JsVal) (question : Option String)
    (files : List Upload) (hmiss : selectedKey env provider = false) :
    noCallStep (analyzeTry env provider question files) := by
  unfold analyzeTry
  simp only [strictEqStr_default]
  split
  · simp [noCallStep]
  · cases hin : analyzeIngestLoop env ([], []) files with
    | error e => simp [noCallStep]
    | ok acc =>
      obtain ⟨images, texts⟩ := acc
      by_cases hg : strictEqStr provider "gemini" = true
      · have hk : env.geminiKey = false := by simpa [selectedKey, hg] using hmiss
        simp [hg, hk, noCallStep]
      · have hk : env.openaiKey = false := by simpa [selectedKey, hg] using hmiss
        simp [hg, hk, noCallStep]

theorem chatHandler_calls_of_noCall (env : Env) (provider prompt history : JsVal)
    (h : noCallStep (chatTry env provider prompt history)) :
    (chatHandler env provider prompt history).calls = [] := by
  unfold chatHandler
  cases ht : chatTry env provider prompt history with
  | error e => rfl
  | ok step =>
    dsimp only
    have hc := runStep_calls_of_noCall env step (ht ▸ h)
    cases hr : runStep env step with
    | mk res calls =>
      rw [hr] at hc
      cases res with
      | error e => exact hc
      | ok reply => cases reply <;> exact hc

theorem filesHandler_calls_of_noCall (env : Env) (provider : JsVal) (prompt : String)
    (history : JsVal) (files : List Upload)
    (h : noCallStep (filesTry env provider prompt history files)) :
    (filesHandler env provider prompt history files).calls = [] := by
  unfold filesHandler
  cases ht : filesTry env provider prompt history files with
  | error e => rfl
  | ok step =>
    dsimp only
    have hc := runStep_calls_of_noCall env step (ht ▸ h)
    cases hr : runStep env step with
    | mk res calls =>
      rw [hr] at hc
      cases res with
      | error e => exact hc
      | ok reply => cases reply <;> exact hc

theorem analyzeHandler_calls_of_noCall (env : Env) (provider : JsVal)
    (question : Option String) (files : List Upload)
    (h : noCallStep (analyzeTry env provider question files)) :
    (analyzeHandler env provider question files).calls = [] := by
  unfold analyzeHandler
  cases ht : analyzeTry env provider question files with
  | error e => rfl
  | ok step =>
    dsimp only
    have hc := runStep_calls_of_noCall env step (ht ▸ h)
    cases hr : runStep env step with
    | mk res calls =>
      rw [hr] at hc
      cases res with
      | error e => exact hc
      | ok reply => cases reply <;> exact hc

/-- C12 as stated fails: with no credential configured, a request to
`/api/chat-with-files` for provider `gemini` carrying a PDF that the extractor
rejects is answered with the 500 `Chat-with-files failed` error, not with the
400 error naming the missing key (the attachments are read before the
credential is looked at). -/
theorem missing_key_after_extraction_counterexample :
    filesHandler (noKeyEnv (.error "Invalid PDF structure")) (.str "gemini") "Summarise"
        (.arr []) [⟨"uploads/1", "a.pdf", "application/pdf"⟩]
      = ⟨500, failBody "Chat-with-files failed" "Invalid PDF structure", [], ["uploads/1"]⟩ ∧
    (filesHandler (noKeyEnv (.error "Invalid PDF structure")) (.str "gemini") "Summarise"
        (.arr []) [⟨"uploads/1", "a.pdf", "application/pdf"⟩]).status ≠ 400 := by
  have h1 : jsTrim "Summarise" = "Summarise" := by decide
  have h2 : jsStartsWith "application/pdf" "image/" = false := by decide
  have h : filesHandler (noKeyEnv (.error "Invalid PDF structure")) (.str "gemini") "Summarise"
        (.arr []) [⟨"uploads/1", "a.pdf", "application/pdf"⟩]
      = ⟨500, failBody "Chat-with-files failed" "Invalid PDF structure", [], ["uploads/1"]⟩ := by
    simp [filesHandler, filesTry, noKeyEnv, h1, ingestLoop, ingestStep, uploadMimeType, h2,
      cleanup, tryUnlink]
  exact ⟨h, by rw [h]; decide⟩

/-- C12, amended. When the selected provider (Gemini for the identifier
`gemini`, OpenAI for every other) has no configured credential, no path makes a
provider call. `/api/chat` answers every non-blank prompt with the 400 error
naming the missing key. `/api/chat-with-files` (non-blank prompt or at least
one file) and `/api/analyze` (at least one file) answer with it whenever the
attachments are read and extracted without failure; a failure there is caught
first and answered with the path's 500 error. -/
theorem provider_unavailable (env : Env) (provider : JsVal)
    (hmiss : selectedKey env provider = false) :
    (∀ prompt history : JsVal, (chatHandler env provider prompt history).calls = []) ∧
    (∀ (prompt : String) (history : JsVal) (files : List Upload),
      (filesHandler env provider prompt history files).calls = []) ∧
    (∀ (question : Option String) (files : List Upload),
      (analyzeHandler env provider question files).calls = []) ∧
    (∀ (s : String) (history : JsVal), jsTrim s ≠ "" →
      chatHandler env provider (.str s) history
        = ⟨400, errorBody (missingKeyError provider), [], []⟩) ∧
    (∀ (prompt : String) (history : JsVal) (files : List Upload)
      (acc : List Image × List DocText),
      (jsTrim prompt ≠ "" ∨ files ≠ []) → ingestLoop env ([], []) files = .ok acc →
      filesHandler env provider prompt history files
        = ⟨400, errorBody (missingKeyError provider), [], cleanup env files⟩) ∧
    (∀ (prompt : String) (history : JsVal) (files : List Upload) (e : String),
      (jsTrim prompt ≠ "" ∨ files ≠ []) → ingestLoop env ([], []) files = .error e →
      filesHandler env provider prompt history files
        = ⟨500, failBody "Chat-with-files failed" e, [], cleanup env files⟩) ∧
    (∀ (question : Option String) (files : List Upload) (acc : List Image × List DocText),
      files ≠ [] → analyzeIngestLoop env ([], []) files = .ok acc →
      analyzeHandler env provider question files
        = ⟨400, errorBody (missingKeyError provider), [], []⟩) ∧
    (∀ (question : Option String) (files : List Upload) (e : String),
      files ≠ [] → analyzeIngestLoop env ([], []) files = .error e →
      analyzeHandler env provider question files
        = ⟨500, failBody "Analyze failed" e, [], []⟩) := by
  have hkeys : (strictEqStr provider "gemini" = true ∧ env.geminiKey = false) ∨
      (strictEqStr provider "gemini" = false ∧ env.openaiKey = false) := by
    by_cases hg : strictEqStr provider "gemini" = true
    · exact Or.inl ⟨hg, by simpa [selectedKey, hg] using hmiss⟩
    · have hg' : strictEqStr provider "gemini" = false := by simpa using hg
      exact Or.inr ⟨hg', by simpa [selectedKey, hg'] using hmiss⟩
  refine ⟨?_, ?_, ?_, ?_, ?_, ?_, ?_, ?_⟩
  · intro prompt history
    exact chatHandler_calls_of_noCall env provider prompt history
      (chatTry_noCall env provider prompt history hmiss)
  · intro prompt history files
    exact filesHandler_calls_of_noCall env provider prompt history files
      (filesTry_noCall env provider prompt history files hmiss)
  · intro question files
    exact analyzeHandler_calls_of_noCall env provider question files
      (analyzeTry_noCall env provider question files hmiss)
  · intro s history hs
    have hne : s ≠ "" := by
      intro he
      exact hs (by rw [he]; exact jsTrim_empty)
    rcases hkeys with ⟨hg, hk⟩ | ⟨hg, hk⟩
    · simp [chatHandler, chatTry, truthy, hne, hs, strictEqStr_default, hg, hk, runStep,
        missingKeyError]
    · simp [chatHandler, chatTry, truthy, hne, hs, strictEqStr_default, hg, hk, runStep,
        missingKeyError]
  · intro prompt history files acc hreq hin
    have hcond : (decide (jsTrim prompt = "") && decide (files.length = 0)) = false := by
      rcases hreq with h | h
      · simp [h]
      · simp [h]
    obtain ⟨images, texts⟩ := acc
    rcases hkeys with ⟨hg, hk⟩ | ⟨hg, hk⟩
    · simp [filesHandler, filesTry, hcond, hin, strictEqStr_jsOr, hg, hk, runStep,
        missingKeyError]
    · simp [filesHandler, filesTry, hcond, hin, strictEqStr_jsOr, hg, hk, runStep,
        missingKeyError]
  · intro prompt history files e hreq hin
    have hcond : (decide (jsTrim prompt = "") && decide (files.length = 0)) = false := by
      rcases hreq with h | h
      · simp [h]
      · simp [h]
    simp [filesHandler, filesTry, hcond, hin]
  · intro question files acc hne hin
    obtain ⟨images, texts⟩ := acc
    rcases hkeys with ⟨hg, hk⟩ | ⟨hg, hk⟩
    · simp [analyzeHandler, analyzeTry, hne, hin, strictEqStr_default, hg, hk, runStep,
        missingKeyError]
    · simp [analyzeHandler, analyzeTry, hne, hin, strictEqStr_default, hg, hk, runStep,
        missingKeyError]
  · intro question files e hne hin
    simp [analyzeHandler, analyzeTry, hne, hin]

/-- C12 amended, at provider `gemini` with no credential configured: a prompt
on `/api/chat`, and one text file on `/api/chat-with-files`. -/
theorem provider_unavailable_witness :
    chatHandler (noKeyEnv (.ok "notes")) (.str "gemini") (.str "hello") (.arr [])
      = ⟨400, errorBody "Gemini key missing", [], []⟩ ∧
    (filesHandler (noKeyEnv (.ok "notes")) (.str "gemini") "hello" (.arr [])
      [⟨"uploads/1", "a.txt", "text/plain"⟩]).calls = [] :=
  ⟨(provider_unavailable (noKeyEnv (.ok "notes")) (.str "gemini") rfl).2.2.2.1 "hello" (.arr [])
      (by decide),
   (provider_unavailable (noKeyEnv (.ok "notes")) (.str "gemini") rfl).2.1 "hello" (.arr [])
      [⟨"uploads/1", "a.txt", "text/plain"⟩]⟩

theorem runStep_openai_calls (env : Env) (messages : JsVal) (temp : Nat) :
    (runStep env (.openai messages temp)).2 = [.openai messages temp] := rfl

theorem runStep_gemini_calls (env : Env) (contents : List JsVal) :
    (runStep env (.gemini contents)).2 = [.gemini contents] := rfl

/-- The calls of a handler whose `try` block reaches `step`. -/
theorem chatHandler_calls_of_step (env : Env) (provider prompt history : JsVal) (step : Step)
    (ht : chatTry env provider prompt history = .ok step) :
    (chatHandler env provider prompt history).calls = (runStep env step).2 := by
  unfold chatHandler
  rw [ht]
  dsimp only
  cases hr : runStep env step with
  | mk res calls =>
    cases res with
    | error e => rfl
    | ok reply => cases reply <;> rfl

theorem filesHandler_calls_of_step (env : Env) (provider : JsVal) (prompt : String)
    (history : JsVal) (files : List Upload) (step : Step)
    (ht : filesTry env provider prompt history files = .ok step) :
    (filesHandler env provider prompt history files).calls = (runStep env step).2 := by
  unfold filesHandler
  rw [ht]
  dsimp only
  cases hr : runStep env step with
  | mk res calls =>
    cases res with
    | error e => rfl
    | ok reply => cases reply <;> rfl

/-- C13 as stated fails: with the OpenAI credential configured, `/api/chat`
asked for the unknown provider `claude` calls OpenAI and answers 200. -/
theorem unknown_provider_counterexample :
    chatHandler
        (sampleEnv (.str "g") (.obj [("choices", .arr [.obj [("message",
          .obj [("content", .str "hello")])]])]))
        (.str "claude") (.str "hi") (.arr [])
      = ⟨200, textBody (.str "hello"),
          [.openai (.arr [.obj [("role", .str "user"), ("content", .str "hi")]]) 6], []⟩ := by
  have h1 : jsTrim "hi" = "hi" := by decide
  have h2 : jsTrim "hello" = "hello" := by decide
  simp [chatHandler, chatTry, sampleEnv, truthy, h1, h2, strictEqStr, chatOpenAIMessages,
    openaiHistory, mapOpt, sanitizeOpenAIMessages_arr, sanitizeMessageFn, lookup, runStep,
    openaiReplyText, get, firstItem, jsOr]

/-- C13, amended. A provider identifier other than `gemini`, unknown ones
included, selects the OpenAI branch: both chat paths behave exactly as for the
identifier `openai`. Without the OpenAI credential a non-blank prompt is
answered with the 400 `OpenAI key missing` error and no provider call; with it
the built messages are sent to OpenAI. -/
theorem unknown_provider_takes_openai (env : Env) (provider : JsVal)
    (hp : strictEqStr provider "gemini" = false) :
    (∀ prompt history : JsVal,
      chatHandler env provider prompt history
        = chatHandler env (.str "openai") prompt history) ∧
    (∀ (prompt : String) (history : JsVal) (files : List Upload),
      filesHandler env provider prompt history files
        = filesHandler env (.str "openai") prompt history files) ∧
    (env.openaiKey = false → ∀ (s : String) (history : JsVal), jsTrim s ≠ "" →
      chatHandler env provider (.str s) history
        = ⟨400, errorBody "OpenAI key missing", [], []⟩) ∧
    (env.openaiKey = true → ∀ (s : String) (turns : List JsVal) (messages : JsVal),
      jsTrim s ≠ "" → chatOpenAIMessages turns s = some messages →
      (chatHandler env provider (.str s) (.arr turns)).calls = [.openai messages 6]) := by
  have ho : strictEqStr (.str "openai") "gemini" = false := by decide
  have hchat : ∀ prompt history : JsVal,
      chatTry env provider prompt history = chatTry env (.str "openai") prompt history := by
    intro prompt history
    simp only [chatTry, strictEqStr_default, hp, ho]
  have hfiles : ∀ (prompt : String) (history : JsVal) (files : List Upload),
      filesTry env provider prompt history files
        = filesTry env (.str "openai") prompt history files := by
    intro prompt history files
    simp only [filesTry, strictEqStr_jsOr, hp, ho]
  refine ⟨?_, ?_, ?_, ?_⟩
  · intro prompt history
    simp only [chatHandler, hchat]
  · intro prompt history files
    simp only [filesHandler, hfiles]
  · intro hk s history hs
    have hne : s ≠ "" := by
      intro he
      exact hs (by rw [he]; exact jsTrim_empty)
    simp [chatHandler, chatTry, truthy, hne, hs, strictEqStr_default, hp, hk, runStep]
  · intro hk s turns messages hs hm
    have hne : s ≠ "" := by
      intro he
      exact hs (by rw [he]; exact jsTrim_empty)
    have ht : chatTry env provider (.str s) (.arr turns) = .ok (.openai messages 6) := by
      simp [chatTry, truthy, hne, hs, strictEqStr_default, hp, hk, hm]
    rw [chatHandler_calls_of_step env provider _ _ _ ht]
    rfl

/-- C13 amended, at the unknown provider `claude` without the OpenAI
credential. -/
theorem unknown_provider_takes_openai_witness :
    chatHandler (noKeyEnv (.ok "")) (.str "claude") (.str "hi") (.arr [])
      = ⟨400, errorBody "OpenAI key missing", [], []⟩ :=
  (unknown_provider_takes_openai (noKeyEnv (.ok "")) (.str "claude") (by decide)).2.2.1 rfl
    "hi" (.arr []) (by decide)

/-! ## The final turn sent to Gemini, and the cleanup of uploads -/

/-- C14, the code at the failing input: a blank prompt with one attachment whose
extracted text is blank passes the emptiness check; on the Gemini variant the
final user turn is sent with no part at all, while the OpenAI variant sends the
placeholder block `(no content)`. -/
theorem gemini_empty_final_turn :
    (filesHandler (sampleEnv (.str "ok") .null) (.str "gemini") "" (.arr [])
        [⟨"uploads/1", "empty.txt", "text/plain"⟩]).calls
      = [.gemini [.obj [("role", .str "user"), ("parts", .arr [])]]] ∧
    (filesHandler (sampleEnv (.str "ok") .null) (.str "openai") "" (.arr [])
        [⟨"uploads/1", "empty.txt", "text/plain"⟩]).calls
      = [.openai (.arr [.obj [("role", .str "user"),
          ("content", .arr [textBlock "(no content)"])]]) 6] := by
  have h2 : jsStartsWith "text/plain" "image/" = false := by decide
  have hin : ingestLoop (sampleEnv (.str "ok") .null) ([], [])
      [⟨"uploads/1", "empty.txt", "text/plain"⟩] = .ok ([], []) := by
    simp [ingestLoop, ingestStep, uploadMimeType, sampleEnv, h2]
  constructor
  · have ht : filesTry (sampleEnv (.str "ok") .null) (.str "gemini") "" (.arr [])
        [⟨"uploads/1", "empty.txt", "text/plain"⟩]
        = .ok (.gemini [.obj [("role", .str "user"), ("parts", .arr [])]]) := by
      simp [filesTry, hin, jsOr, truthy, strictEqStr, iterate, filesGeminiContents,
        geminiHistoryLoop, geminiParts]
      simp [sampleEnv]
    rw [filesHandler_calls_of_step _ _ _ _ _ _ ht]
    rfl
  · have ht : filesTry (sampleEnv (.str "ok") .null) (.str "openai") "" (.arr [])
        [⟨"uploads/1", "empty.txt", "text/plain"⟩]
        = .ok (.openai (.arr [.obj [("role", .str "user"),
            ("content", .arr [textBlock "(no content)"])]]) 6) := by
      simp [filesTry, hin, jsOr, truthy, strictEqStr, filesOpenAIMessages, openaiHistory,
        mapOpt, sanitizeOpenAIMessages_arr, sanitizeMessageFn, lookup, setField,
        map_sanitizePart_openaiContent]
      simp [sampleEnv, openaiContent, openaiContentRaw]
    rw [filesHandler_calls_of_step _ _ _ _ _ _ ht]
    rfl

theorem cleanup_eq_paths (env : Env) (files : List Upload) :
    cleanup env files = files.map (fun f => f.path) := by
  unfold cleanup
  apply List.map_congr_left
  intro f _
  unfold tryUnlink
  cases env.unlinkSync f.path <;> rfl

theorem filesTry_respond_unlinked (env : Env) (provider : JsVal) (prompt : String)
    (history : JsVal) (files : List Upload) (status : Nat) (body : JsVal)
    (unlinked : List String)
    (h : filesTry env provider prompt history files = .ok (.respond status body unlinked)) :
    unlinked = cleanup env files := by
  unfold filesTry at h
  split at h
  · simp only [Except.ok.injEq, Step.respond.injEq] at h
    exact h.2.2.symm
  · cases hin : ingestLoop env ([], []) files with
    | error e => simp [hin] at h
    | ok acc =>
      obtain ⟨images, texts⟩ := acc
      simp only [hin] at h
      split at h
      · split at h
        · simp only [Except.ok.injEq, Step.respond.injEq] at h
          exact h.2.2.symm
        · split at h
          · simp at h
          · split at h <;> simp at h
      · split at h
        · simp only [Except.ok.injEq, Step.respond.injEq] at h
          exact h.2.2.symm
        · split at h
          · split at h <;> simp at h
          · simp at h

/-- C15, the code at the failing input: `/api/analyze` asked for provider
`gemini` without the Gemini credential answers 400 and attempts no deletion of
the uploaded file, and neither does it when extraction fails (500); whereas
`/api/chat-with-files` attempts the deletion of every uploaded file on every
exit. -/
theorem analyze_leaves_uploads :
    analyzeHandler (noKeyEnv (.ok "notes")) (.str "gemini") none
        [⟨"uploads/1", "a.txt", "text/plain"⟩]
      = ⟨400, errorBody "Gemini key missing", [], []⟩ ∧
    analyzeHandler (noKeyEnv (.error "Invalid PDF structure")) (.str "gemini") none
        [⟨"uploads/1", "a.pdf", "application/pdf"⟩]
      = ⟨500, failBody "Analyze failed" "Invalid PDF structure", [], []⟩ ∧
    (∀ (env : Env) (provider : JsVal) (prompt : String) (history : JsVal)
      (files : List Upload),
      (filesHandler env provider prompt history files).unlinked
        = files.map (fun f => f.path)) := by
  have h2 : jsStartsWith "text/plain" "image/" = false := by decide
  have h3 : jsStartsWith "application/pdf" "image/" = false := by decide
  refine ⟨?_, ?_, ?_⟩
  · simp [analyzeHandler, analyzeTry, noKeyEnv, analyzeIngestLoop, analyzeIngestStep,
      uploadMimeType, h2, strictEqStr, runStep]
  · simp [analyzeHandler, analyzeTry, noKeyEnv, analyzeIngestLoop, analyzeIngestStep,
      uploadMimeType, h3]
  · intro env provider prompt history files
    rw [← cleanup_eq_paths env files]
    unfold filesHandler
    cases ht : filesTry env provider prompt history files with
    | error e => rfl
    | ok step =>
      dsimp only
      cases step with
      | respond status body unlinked =>
        have hu := filesTry_respond_unlinked env provider prompt history files _ _ _ ht
        simp [runStep, hu]
      | gemini contents =>
        cases hg : env.generateContent contents <;> simp [runStep, hg]
      | openai messages temp =>
        cases hg : env.createCompletion messages temp with
        | error e => simp [runStep, hg]
        | ok r => cases ho : openaiReplyText r <;> simp [runStep, hg, ho]

/-! ## Text wrapping -/

theorem splitWs_ne_nil (cs : List Char) : splitWs cs ≠ [] := by
  induction cs with
  | nil => simp [splitWs]
  | cons c cs ih =>
    rw [splitWs]
    split
    · split
      · exact ih
      · simp
    · simp

theorem splitWs_eq_head_tail (cs : List Char) :
    splitWs cs = (splitWs cs).headD [] :: (splitWs cs).tail := by
  cases h : splitWs cs with
  | nil => exact absurd h (splitWs_ne_nil cs)
  | cons w ws => simp

/-- Every piece is free of white space. -/
theorem splitWs_spaceFree (cs : List Char) :
    ∀ w ∈ splitWs cs, ∀ c ∈ w, isJsSpace c = false := by
  induction cs with
  | nil => simp [splitWs]
  | cons c cs ih =>
    rw [splitWs]
    split
    · split
      · exact ih
      · intro w hw
        rcases List.mem_cons.mp hw with rfl | hw
        · simp
        · exact ih w hw
    · rename_i hc
      intro w hw
      rcases List.mem_cons.mp hw with rfl | hw
      · intro x hx
        rcases List.mem_cons.mp hx with rfl | hx
        · simpa using hc
        · have hmem : (splitWs cs).headD [] ∈ splitWs cs := by
            rw [splitWs_eq_head_tail cs]; simp
          exact ih _ hmem x hx
      · exact ih w (List.mem_of_mem_tail hw)

/-- A text free of white space is its own single piece. -/
theorem splitWs_of_spaceFree (w : List Char) (hw : ∀ c ∈ w, isJsSpace c = false) :
    splitWs w = [w] := by
  induction w with
  | nil => simp [splitWs]
  | cons c cs ih =>
    have hc : isJsSpace c = false := hw c (by simp)
    have hcs : ∀ x ∈ cs, isJsSpace x = false := fun x hx => hw x (by simp [hx])
    rw [splitWs]
    simp [hc, ih hcs]

theorem wordsChars_of_spaceFree (w : List Char) (hw : ∀ c ∈ w, isJsSpace c = false) :
    wordsChars w = if w = [] then [] else [w] := by
  unfold wordsChars
  rw [splitWs_of_spaceFree w hw]
  cases w <;> simp [List.filter]

theorem startsWithSpace_append (a b : List Char) (ha : a ≠ []) :
    startsWithSpace (a ++ b) = startsWithSpace a := by
  cases a with
  | nil => exact absurd rfl ha
  | cons c r => rfl

/-- Appending a blank and a space-free word: the first piece is kept, and the
non-empty pieces after it gain exactly the word (when it is not empty). -/
theorem splitWs_append_word (w : List Char) (hw : ∀ c ∈ w, isJsSpace c = false)
    (a : List Char) :
    (splitWs (a ++ ' ' :: w)).headD [] = (splitWs a).headD [] ∧
    ((splitWs (a ++ ' ' :: w)).tail).filter (fun p => !p.isEmpty)
      = ((splitWs a).tail).filter (fun p => !p.isEmpty) ++ wordsChars w := by
  have hsp : isJsSpace ' ' = true := by decide
  have hsw : startsWithSpace w = false := by
    cases w with
    | nil => rfl
    | cons d r => exact hw d (by simp)
  induction a with
  | nil =>
    simp only [List.nil_append]
    rw [splitWs]
    simp [hsp, hsw, splitWs, wordsChars]
  | cons c r ih =>
    obtain ⟨ih1, ih2⟩ := ih
    by_cases hc : isJsSpace c = true
    · simp only [List.cons_append]
      rw [splitWs, splitWs.eq_def (c :: r)]
      simp only [hc, if_true]
      cases r with
      | nil =>
        simp only [List.nil_append] at ih1 ih2 ⊢
        simp only [startsWithSpace, hsp, if_true, Bool.false_eq_true, if_false]
        refine ⟨?_, ?_⟩
        · rw [ih1]; simp [splitWs]
        · rw [ih2]; simp [splitWs]
      | cons d r' =>
        have hst : startsWithSpace ((d :: r') ++ ' ' :: w) = startsWithSpace (d :: r') :=
          startsWithSpace_append _ _ (by simp)
        rw [hst]
        by_cases hd : startsWithSpace (d :: r') = true
        · simp only [hd, if_true]
          exact ⟨ih1, ih2⟩
        · simp only [hd, Bool.false_eq_true, if_false, List.headD_cons, List.tail_cons]
          refine ⟨trivial, ?_⟩
          rw [splitWs_eq_head_tail ((d :: r') ++ ' ' :: w), splitWs_eq_head_tail (d :: r')]
          simp only [List.filter_cons, ih1, ih2]
          split <;> simp
    · have hc' : isJsSpace c = false := by simpa using hc
      simp only [List.cons_append]
      rw [splitWs, splitWs.eq_def (c :: r)]
      simp only [hc', Bool.false_eq_true, if_false, List.headD_cons, List.tail_cons]
      exact ⟨by rw [ih1], ih2⟩

theorem wordsChars_append_word (w : List Char) (hw : ∀ c ∈ w, isJsSpace c = false)
    (a : List Char) : wordsChars (a ++ ' ' :: w) = wordsChars a ++ wordsChars w := by
  obtain ⟨h1, h2⟩ := splitWs_append_word w hw a
  unfold wordsChars at *
  rw [splitWs_eq_head_tail (a ++ ' ' :: w), splitWs_eq_head_tail a]
  simp only [List.filter_cons, h1, h2]
  split <;> simp

theorem wordsOf_eq_map (s : String) : wordsOf s = (wordsChars s.data).map String.mk := by
  unfold wordsOf jsSplitWs wordsChars
  rw [List.filter_map]
  congr 1
  apply List.filter_congr
  intro w _
  cases w <;> simp [String.ext_iff]

theorem wordsOf_empty : wordsOf "" = [] := by
  rw [wordsOf_eq_map]
  simp [wordsChars, splitWs]

/-- A string free of white space is its own single word, unless it is empty. -/
theorem wordsOf_of_spaceFree (w : String) (hw : ∀ c ∈ w.data, isJsSpace c = false) :
    wordsOf w = if w = "" then [] else [w] := by
  rw [wordsOf_eq_map, wordsChars_of_spaceFree w.data hw]
  by_cases h : w = ""
  · subst h; simp
  · have hd : w.data ≠ [] := by
      intro hd
      exact h (String.ext hd)
    simp [h, hd]

theorem wordsOf_append_word (line w : String) (hw : ∀ c ∈ w.data, isJsSpace c = false) :
    wordsOf (line ++ " " ++ w) = wordsOf line ++ wordsOf w := by
  rw [wordsOf_eq_map, wordsOf_eq_map, wordsOf_eq_map]
  have hd : (line ++ " " ++ w).data = line.data ++ ' ' :: w.data := by
    simp [String.data_append]
  rw [hd, wordsChars_append_word w.data hw line.data, List.map_append]

theorem jsSplitWs_spaceFree (text : String) :
    ∀ w ∈ jsSplitWs text, ∀ c ∈ w.data, isJsSpace c = false := by
  intro w hw
  unfold jsSplitWs at hw
  obtain ⟨p, hp, rfl⟩ := List.mem_map.mp hw
  exact splitWs_spaceFree text.data p hp

theorem wordsOf_eq_bind (text : String) :
    wordsOf text = (jsSplitWs text).flatMap wordsOf := by
  have key : ∀ ws : List String, (∀ w ∈ ws, ∀ c ∈ w.data, isJsSpace c = false) →
      ws.filter (fun w => w != "") = ws.flatMap wordsOf := by
    intro ws hws
    induction ws with
    | nil => rfl
    | cons w rest ih =>
      have hw := hws w (by simp)
      have hrest : ∀ w' ∈ rest, ∀ c ∈ w'.data, isJsSpace c = false :=
        fun w' hw' => hws w' (by simp [hw'])
      rw [List.flatMap_cons, wordsOf_of_spaceFree w hw, ← ih hrest]
      by_cases h : w = ""
      · simp [List.filter_cons, h]
      · simp [List.filter_cons, h]
  exact key _ (jsSplitWs_spaceFree text)

/-- One iteration of the loop of `wrapText` keeps the invariant: the finished
lines are non-empty, every finished line and the open line pass the width test
or are a single word, and the words of the lines so far are the words consumed
so far. -/
theorem wrapStep_invariant {α : Type} [LinearOrder α] (measure : String → Option α)
    (maxWidth : Option α) (st : List String × String) (w : String) (P : List String)
    (hw : ∀ c ∈ w.data, isJsSpace c = false)
    (h1 : ∀ l ∈ st.1, l ≠ "")
    (h2 : ∀ l ∈ st.1, jsGt (measure l) maxWidth = false ∨ wordsOf l = [l])
    (h3 : st.2 = "" ∨ jsGt (measure st.2) maxWidth = false ∨ wordsOf st.2 = [st.2])
    (h4 : st.1.flatMap wordsOf ++ wordsOf st.2 = P) :
    (∀ l ∈ (wrapStep measure maxWidth st w).1, l ≠ "") ∧
    (∀ l ∈ (wrapStep measure maxWidth st w).1,
      jsGt (measure l) maxWidth = false ∨ wordsOf l = [l]) ∧
    ((wrapStep measure maxWidth st w).2 = "" ∨
      jsGt (measure (wrapStep measure maxWidth st w).2) maxWidth = false ∨
      wordsOf (wrapStep measure maxWidth st w).2 = [(wrapStep measure maxWidth st w).2]) ∧
    (wrapStep measure maxWidth st w).1.flatMap wordsOf ++
        wordsOf (wrapStep measure maxWidth st w).2
      = P ++ wordsOf w := by
  obtain ⟨lines, line⟩ := st
  simp only at h1 h2 h3 h4
  have hword : w = "" ∨ wordsOf w = [w] := by
    by_cases h : w = ""
    · exact Or.inl h
    · right; rw [wordsOf_of_spaceFree w hw]; simp [h]
  by_cases hl : line = ""
  · subst hl
    have hstep : wrapStep measure maxWidth (lines, "") w = (lines, w) := by
      simp [wrapStep]
    rw [hstep]
    refine ⟨h1, h2, ?_, ?_⟩
    · rcases hword with h | h
      · exact Or.inl h
      · exact Or.inr (Or.inr h)
    · rw [wordsOf_empty, List.append_nil] at h4
      simp [h4]
  · by_cases hwide : jsGt (measure (line ++ " " ++ w)) maxWidth = true
    · have hstep : wrapStep measure maxWidth (lines, line) w = (lines ++ [line], w) := by
        simp [wrapStep, hl, hwide]
      rw [hstep]
      refine ⟨?_, ?_, ?_, ?_⟩
      · intro l hmem
        rcases List.mem_append.mp hmem with hm | hm
        · exact h1 l hm
        · rw [List.mem_singleton.mp hm]; exact hl
      · intro l hmem
        rcases List.mem_append.mp hmem with hm | hm
        · exact h2 l hm
        · rw [List.mem_singleton.mp hm]
          rcases h3 with h | h
          · exact absurd h hl
          · exact h
      · rcases hword with h | h
        · exact Or.inl h
        · exact Or.inr (Or.inr h)
      · simp only [List.flatMap_append, List.flatMap_cons, List.flatMap_nil, List.append_nil]
        rw [h4]
    · have hwide' : jsGt (measure (line ++ " " ++ w)) maxWidth = false := by
        simpa using hwide
      have hstep : wrapStep measure maxWidth (lines, line) w = (lines, line ++ " " ++ w) := by
        simp [wrapStep, hl, hwide']
      rw [hstep]
      refine ⟨h1, h2, Or.inr (Or.inl hwide'), ?_⟩
      simp only
      rw [wordsOf_append_word line w hw, ← List.append_assoc, h4]

theorem wrapLoop_invariant {α : Type} [LinearOrder α] (measure : String → Option α)
    (maxWidth : Option α)
    (ws : List String) (hws : ∀ w ∈ ws, ∀ c ∈ w.data, isJsSpace c = false)
    (st : List String × String) (P : List String)
    (h1 : ∀ l ∈ st.1, l ≠ "")
    (h2 : ∀ l ∈ st.1, jsGt (measure l) maxWidth = false ∨ wordsOf l = [l])
    (h3 : st.2 = "" ∨ jsGt (measure st.2) maxWidth = false ∨ wordsOf st.2 = [st.2])
    (h4 : st.1.flatMap wordsOf ++ wordsOf st.2 = P) :
    (∀ l ∈ (ws.foldl (wrapStep measure maxWidth) st).1, l ≠ "") ∧
    (∀ l ∈ (ws.foldl (wrapStep measure maxWidth) st).1,
      jsGt (measure l) maxWidth = false ∨ wordsOf l = [l]) ∧
    ((ws.foldl (wrapStep measure maxWidth) st).2 = "" ∨
      jsGt (measure (ws.foldl (wrapStep measure maxWidth) st).2) maxWidth = false ∨
      wordsOf (ws.foldl (wrapStep measure maxWidth) st).2
        = [(ws.foldl (wrapStep measure maxWidth) st).2]) ∧
    (ws.foldl (wrapStep measure maxWidth) st).1.flatMap wordsOf ++
        wordsOf (ws.foldl (wrapStep measure maxWidth) st).2
      = P ++ ws.flatMap wordsOf := by
  induction ws generalizing st P with
  | nil => simpa using ⟨h1, h2, h3, h4⟩
  | cons w rest ih =>
    have hw := hws w (by simp)
    have hrest : ∀ w' ∈ rest, ∀ c ∈ w'.data, isJsSpace c = false :=
      fun w' hw' => hws w' (by simp [hw'])
    obtain ⟨s1, s2, s3, s4⟩ := wrapStep_invariant measure maxWidth st w P hw h1 h2 h3 h4
    have := ih hrest (wrapStep measure maxWidth st w) (P ++ wordsOf w) s1 s2 s3 s4
    simpa [List.foldl, List.flatMap_cons, List.append_assoc] using this

theorem onlyLastEmpty_cons (x : List Char) (t : List (List Char)) (hx : x ≠ [])
    (ht : onlyLastEmpty t) : onlyLastEmpty (x :: t) := by
  cases t with
  | nil => trivial
  | cons y r => exact ⟨hx, ht⟩

theorem onlyLastEmpty_tail (x : List Char) (t : List (List Char))
    (h : onlyLastEmpty (x :: t)) : onlyLastEmpty t := by
  cases t with
  | nil => trivial
  | cons y r => exact h.2

theorem nil_of_onlyLastEmpty (t : List (List Char)) (h : onlyLastEmpty ([] :: t)) : t = [] := by
  cases t with
  | nil => rfl
  | cons y r => exact absurd rfl h.1

/-- After the first piece of a split, only the last piece may be empty; and the
first piece of a text that starts with a character other than white space is
not empty. -/
theorem splitWs_onlyLastEmpty (cs : List Char) :
    onlyLastEmpty (splitWs cs).tail ∧
    (cs ≠ [] → startsWithSpace cs = false → (splitWs cs).headD [] ≠ []) := by
  induction cs with
  | nil => simp [splitWs, onlyLastEmpty]
  | cons c r ih =>
    obtain ⟨ih1, ih2⟩ := ih
    by_cases hc : isJsSpace c = true
    · refine ⟨?_, ?_⟩
      · rw [splitWs]
        simp only [hc, if_true]
        by_cases hr : startsWithSpace r = true
        · simp only [hr, if_true]
          exact ih1
        · have hr' : startsWithSpace r = false := by simpa using hr
          simp only [hr', Bool.false_eq_true, if_false, List.tail_cons]
          cases r with
          | nil => simp [splitWs, onlyLastEmpty]
          | cons d r' =>
            rw [splitWs_eq_head_tail (d :: r')]
            exact onlyLastEmpty_cons _ _ (ih2 (by simp) hr') ih1
      · intro _ hs
        simp [startsWithSpace, hc] at hs
    · have hc' : isJsSpace c = false := by simpa using hc
      rw [splitWs]
      simp only [hc', Bool.false_eq_true, if_false, List.tail_cons, List.headD_cons]
      exact ⟨ih1, fun _ _ => by simp⟩

/-- One iteration of the loop keeps the breaks forced. -/
theorem wrapStep_forced {α : Type} [LinearOrder α] (measure : String → Option α)
    (maxWidth : Option α) (st : List String × String) (w : String) (rest : List String)
    (hw : ∀ c ∈ w.data, isJsSpace c = false)
    (hlast : onlyLastEmpty ((w :: rest).map String.data))
    (hc : List.Chain' (forcedBreak measure maxWidth) st.1)
    (hl : ∀ l ∈ st.1.getLast?, st.2 ≠ "" ∧ forcedBreak measure maxWidth l st.2) :
    List.Chain' (forcedBreak measure maxWidth) (wrapStep measure maxWidth st w).1 ∧
    (∀ l ∈ (wrapStep measure maxWidth st w).1.getLast?,
      ((wrapStep measure maxWidth st w).2 ≠ "" ∧
        forcedBreak measure maxWidth l (wrapStep measure maxWidth st w).2) ∨
      ((wrapStep measure maxWidth st w).2 = "" ∧ rest = [])) := by
  obtain ⟨lines, line⟩ := st
  simp only at hc hl
  by_cases hline : line = ""
  · subst hline
    have hstep : wrapStep measure maxWidth (lines, "") w = (lines, w) := by
      simp [wrapStep]
    rw [hstep]
    refine ⟨hc, ?_⟩
    intro l hmem
    exact absurd rfl (hl l hmem).1
  · by_cases hwide : jsGt (measure (line ++ " " ++ w)) maxWidth = true
    · have hstep : wrapStep measure maxWidth (lines, line) w = (lines ++ [line], w) := by
        simp [wrapStep, hline, hwide]
      rw [hstep]
      refine ⟨?_, ?_⟩
      · refine List.Chain'.append hc (List.chain'_singleton _) ?_
        intro x hx y hy
        simp only [List.head?_cons, Option.mem_def, Option.some.injEq] at hy
        subst hy
        exact (hl x hx).2
      · intro l hmem
        have hlast2 : (lines ++ [line]).getLast? = some line := by simp
        simp only [hlast2, Option.mem_def, Option.some.injEq] at hmem
        subst hmem
        by_cases hwe : w = ""
        · right
          refine ⟨hwe, ?_⟩
          subst hwe
          have := nil_of_onlyLastEmpty (rest.map String.data) (by simpa using hlast)
          simpa using this
        · left
          refine ⟨hwe, w, ?_, hwide⟩
          rw [wordsOf_of_spaceFree w hw]
          simp [hwe]
    · have hwide' : jsGt (measure (line ++ " " ++ w)) maxWidth = false := by
        simpa using hwide
      have hstep : wrapStep measure maxWidth (lines, line) w = (lines, line ++ " " ++ w) := by
        simp [wrapStep, hline, hwide']
      rw [hstep]
      refine ⟨hc, ?_⟩
      intro l hmem
      left
      obtain ⟨-, w0, hw0, hgt⟩ := hl l hmem
      refine ⟨?_, w0, ?_, hgt⟩
      · intro he
        have := congrArg String.data he
        simp [String.data_append] at this
      · simp only
        rw [wordsOf_append_word line w hw]
        cases hwl : wordsOf line with
        | nil => simp [hwl] at hw0
        | cons a r => simpa [hwl] using hw0

theorem wrapLoop_forced {α : Type} [LinearOrder α] (measure : String → Option α)
    (maxWidth : Option α) (ws : List String)
    (hws : ∀ w ∈ ws, ∀ c ∈ w.data, isJsSpace c = false)
    (hlast : onlyLastEmpty (ws.map String.data))
    (st : List String × String)
    (hc : List.Chain' (forcedBreak measure maxWidth) st.1)
    (hl : ∀ l ∈ st.1.getLast?,
      (st.2 ≠ "" ∧ forcedBreak measure maxWidth l st.2) ∨ (st.2 = "" ∧ ws = [])) :
    List.Chain' (forcedBreak measure maxWidth) (ws.foldl (wrapStep measure maxWidth) st).1 ∧
    (∀ l ∈ (ws.foldl (wrapStep measure maxWidth) st).1.getLast?,
      (ws.foldl (wrapStep measure maxWidth) st).2 ≠ "" →
      forcedBreak measure maxWidth l (ws.foldl (wrapStep measure maxWidth) st).2) := by
  induction ws generalizing st with
  | nil =>
    refine ⟨hc, ?_⟩
    intro l hmem hne
    rcases hl l hmem with h | h
    · exact h.2
    · exact absurd h.1 hne
  | cons w rest ih =>
    have hw := hws w (by simp)
    have hrest : ∀ w' ∈ rest, ∀ c ∈ w'.data, isJsSpace c = false :=
      fun w' hw' => hws w' (by simp [hw'])
    have hl' : ∀ l ∈ st.1.getLast?, st.2 ≠ "" ∧ forcedBreak measure maxWidth l st.2 := by
      intro l hmem
      rcases hl l hmem with h | h
      · exact h
      · exact absurd h.2 (by simp)
    obtain ⟨s1, s2⟩ := wrapStep_forced measure maxWidth st w rest hw hlast hc hl'
    have hlast' : onlyLastEmpty (rest.map String.data) :=
      onlyLastEmpty_tail _ _ (by simpa using hlast)
    simpa [List.foldl] using ih hrest hlast' (wrapStep measure maxWidth st w) s1 s2

theorem chain_getElem {β : Type} (R : β → β → Prop) (l : List β) (h : List.Chain' R l) :
    ∀ (i : Nat) (a b : β), l[i]? = some a → l[i + 1]? = some b → R a b := by
  induction l with
  | nil => intro i a b ha; simp at ha
  | cons x t ih =>
    intro i a b ha hb
    cases i with
    | zero =>
      simp only [List.getElem?_cons_zero, Option.some.injEq] at ha
      subst ha
      simp only [zero_add, List.getElem?_cons_succ] at hb
      cases t with
      | nil => simp at hb
      | cons y r =>
        simp only [List.getElem?_cons_zero, Option.some.injEq] at hb
        subst hb
        exact (List.chain'_cons.mp h).1
    | succ j =>
      simp only [List.getElem?_cons_succ] at ha hb
      exact ih (List.Chain'.tail h) j a b ha hb

/-- C18, amended. `wrapText` is a greedy word wrap, total on every text, every
width function and every `maxWidth`, NaN included. No line it returns is empty.
Every line is a single word or passes the width test (`width > maxWidth` is
false), which is `width ≤ maxWidth` whenever neither number is NaN. The words
of the returned lines, read in order, are exactly the non-empty
whitespace-separated words of the text, in their order. And every break is
forced: a line extended by a blank and the first word of the next line measures
more than `maxWidth`. -/
theorem wrapText_greedy {α : Type} [LinearOrder α] (text : String)
    (measure : String → Option α) (maxWidth : Option α) :
    (∀ l ∈ wrapText text measure maxWidth, l ≠ "") ∧
    (∀ l ∈ wrapText text measure maxWidth,
      jsGt (measure l) maxWidth = false ∨ wordsOf l = [l]) ∧
    (∀ l ∈ wrapText text measure maxWidth, ∀ a b : α,
      measure l = some a → maxWidth = some b → a ≤ b ∨ wordsOf l = [l]) ∧
    (wrapText text measure maxWidth).flatMap wordsOf = wordsOf text ∧
    (∀ (i : Nat) (l next : String),
      (wrapText text measure maxWidth)[i]? = some l →
      (wrapText text measure maxWidth)[i + 1]? = some next →
      ∃ w, (wordsOf next).head? = some w ∧
        jsGt (measure (l ++ " " ++ w)) maxWidth = true) := by
  obtain ⟨s1, s2, s3, s4⟩ := wrapLoop_invariant measure maxWidth (jsSplitWs text)
    (jsSplitWs_spaceFree text) ([], "") [] (by simp) (by simp) (Or.inl rfl)
    (by simp [wordsOf_empty])
  rw [List.nil_append, ← wordsOf_eq_bind] at s4
  have hforced : List.Chain' (forcedBreak measure maxWidth)
        ((jsSplitWs text).foldl (wrapStep measure maxWidth) ([], "")).1 ∧
      (∀ l ∈ ((jsSplitWs text).foldl (wrapStep measure maxWidth) ([], "")).1.getLast?,
        ((jsSplitWs text).foldl (wrapStep measure maxWidth) ([], "")).2 ≠ "" →
        forcedBreak measure maxWidth l
          ((jsSplitWs text).foldl (wrapStep measure maxWidth) ([], "")).2) := by
    have hsplit : jsSplitWs text
        = String.mk ((splitWs text.data).headD []) :: (splitWs text.data).tail.map String.mk := by
      unfold jsSplitWs
      conv_lhs => rw [splitWs_eq_head_tail text.data]
      simp
    have hfirst : wrapStep measure maxWidth ([], "") (String.mk ((splitWs text.data).headD []))
        = ([], String.mk ((splitWs text.data).headD [])) := by
      simp [wrapStep]
    rw [hsplit, List.foldl_cons, hfirst]
    refine wrapLoop_forced measure maxWidth _ ?_ ?_ _ List.chain'_nil (by simp)
    · intro w hw
      exact jsSplitWs_spaceFree text w (by rw [hsplit]; exact List.mem_cons_of_mem _ hw)
    · have : ((splitWs text.data).tail.map String.mk).map String.data
          = (splitWs text.data).tail := by
        rw [List.map_map]
        exact List.map_id _
      rw [this]
      exact (splitWs_onlyLastEmpty text.data).1
  obtain ⟨g1, g2⟩ := hforced
  have hle : ∀ l : String, jsGt (measure l) maxWidth = false ∨ wordsOf l = [l] →
      ∀ a b : α, measure l = some a → maxWidth = some b → a ≤ b ∨ wordsOf l = [l] := by
    intro l h a b ha hb
    rcases h with h | h
    · left
      rw [ha, hb] at h
      simpa [jsGt] using h
    · exact Or.inr h
  unfold wrapText
  by_cases hl : ((jsSplitWs text).foldl (wrapStep measure maxWidth) ([], "")).2 = ""
  · simp only [hl, bne_self_eq_false, Bool.false_eq_true, if_false]
    rw [hl, wordsOf_empty, List.append_nil] at s4
    exact ⟨s1, s2, fun l hm => hle l (s2 l hm), s4, chain_getElem _ _ g1⟩
  · have hb : (((jsSplitWs text).foldl (wrapStep measure maxWidth) ([], "")).2 != "") = true := by
      simpa using hl
    simp only [hb, if_true]
    have p1 : ∀ l ∈ ((jsSplitWs text).foldl (wrapStep measure maxWidth) ([], "")).1 ++
        [((jsSplitWs text).foldl (wrapStep measure maxWidth) ([], "")).2], l ≠ "" := by
      intro l hmem
      rcases List.mem_append.mp hmem with hm | hm
      · exact s1 l hm
      · rw [List.mem_singleton.mp hm]; exact hl
    have p2 : ∀ l ∈ ((jsSplitWs text).foldl (wrapStep measure maxWidth) ([], "")).1 ++
        [((jsSplitWs text).foldl (wrapStep measure maxWidth) ([], "")).2],
        jsGt (measure l) maxWidth = false ∨ wordsOf l = [l] := by
      intro l hmem
      rcases List.mem_append.mp hmem with hm | hm
      · exact s2 l hm
      · rw [List.mem_singleton.mp hm]
        rcases s3 with h | h
        · exact absurd h hl
        · exact h
    refine ⟨p1, p2, fun l hm => hle l (p2 l hm), ?_, ?_⟩
    · simp only [List.flatMap_append, List.flatMap_cons, List.flatMap_nil, List.append_nil]
      exact s4
    · refine chain_getElem _ _ (List.Chain'.append g1 (List.chain'_singleton _) ?_)
      intro x hx y hy
      simp only [List.head?_cons, Option.mem_def, Option.some.injEq] at hy
      subst hy
      exact g2 x hx hl

/-- C18 as stated fails when `maxWidth` is NaN: the test `width > maxWidth` is
then never true, no line is ever broken, and `aa bb cc` comes back as one line
of three words that does not measure at most `maxWidth`. -/
theorem wrapText_nan_counterexample :
    wrapText "aa bb cc" (fun s => some s.length) (none : Option Nat) = ["aa bb cc"] ∧
    jsLe (some ("aa bb cc".length)) (none : Option Nat) = false ∧
    wordsOf "aa bb cc" ≠ ["aa bb cc"] := by
  refine ⟨by decide, by decide, by decide⟩

/-- C18 amended, at `aa bb cc` measured by its length with `maxWidth` 5: the
break after `aa bb` is forced by the word `cc`. -/
theorem wrapText_greedy_witness :
    ∃ w, (wordsOf "cc").head? = some w ∧
      jsGt ((fun s : String => some s.length) ("aa bb" ++ " " ++ w)) (some 5) = true :=
  (wrapText_greedy "aa bb cc" (fun s => some s.length) (some 5)).2.2.2.2 0 "aa bb" "cc"
    (by decide) (by decide)

/-! ## History folding at the handlers -/

theorem geminiHistoryStep_of_foldable (contents : List JsVal) (m : JsVal)
    (hf : turnFoldable m = true) :
    geminiHistoryStep contents m
      = some (contents ++ (if turnHasText m then [geminiTurn m] else [])) := by
  have hstep : geminiHistoryStep contents m
      = (match jsOr (turnText m) (.str "") with
        | .str s =>
          if jsTrim s = "" then some contents
          else some (contents ++ [.obj [
            ("role", .str (if strictEqStr (get m "role") "assistant" then "model" else "user")),
            ("parts", .arr [.obj [("text", .str s)]])]])
        | _ => none) := rfl
  rw [hstep]
  unfold turnFoldable at hf
  unfold turnHasText geminiTurn
  cases hv : turnText m with
  | str s =>
    by_cases he : s = ""
    · subst he
      simp [jsOr, truthy, jsTrim_empty]
    · by_cases ht : jsTrim s = ""
      · simp [jsOr, truthy, he, ht]
      · simp [jsOr, truthy, he, ht]
  | _ => simp_all [jsOr, truthy, jsTrim_empty]

theorem geminiHistoryStep_of_not_foldable (contents : List JsVal) (m : JsVal)
    (hf : turnFoldable m = false) : geminiHistoryStep contents m = none := by
  have hstep : geminiHistoryStep contents m
      = (match jsOr (turnText m) (.str "") with
        | .str s =>
          if jsTrim s = "" then some contents
          else some (contents ++ [.obj [
            ("role", .str (if strictEqStr (get m "role") "assistant" then "model" else "user")),
            ("parts", .arr [.obj [("text", .str s)]])]])
        | _ => none) := rfl
  rw [hstep]
  unfold turnFoldable at hf
  cases hv : turnText m <;> simp_all [jsOr, truthy]

theorem geminiHistoryLoop_of_foldable (h : List JsVal)
    (hf : ∀ m ∈ h, turnFoldable m = true) (contents : List JsVal) :
    geminiHistoryLoop contents h
      = some (contents ++ (h.filter turnHasText).map geminiTurn) := by
  induction h generalizing contents with
  | nil => simp [geminiHistoryLoop]
  | cons m rest ih =>
    have hrest : ∀ m' ∈ rest, turnFoldable m' = true := fun m' hm' => hf m' (by simp [hm'])
    simp only [geminiHistoryLoop, geminiHistoryStep_of_foldable contents m (hf m (by simp)),
      ih hrest]
    by_cases hc : turnHasText m = true
    · simp [List.filter_cons, hc]
    · simp [List.filter_cons, hc]

theorem geminiHistoryLoop_of_not_foldable (h : List JsVal)
    (hf : ∃ m ∈ h, turnFoldable m = false) (contents : List JsVal) :
    geminiHistoryLoop contents h = none := by
  induction h generalizing contents with
  | nil => simp at hf
  | cons m rest ih =>
    by_cases hm : turnFoldable m = true
    · have hrest : ∃ m' ∈ rest, turnFoldable m' = false := by
        obtain ⟨m', hm', hbad⟩ := hf
        rcases List.mem_cons.mp hm' with rfl | hin
        · rw [hm] at hbad; exact absurd hbad (by simp)
        · exact ⟨m', hin, hbad⟩
      simp only [geminiHistoryLoop, geminiHistoryStep_of_foldable contents m hm]
      exact ih hrest _
    · have hm' : turnFoldable m = false := by simpa using hm
      simp [geminiHistoryLoop, geminiHistoryStep_of_not_foldable contents m hm']

theorem openaiHistoryTurn_of_foldable (m : JsVal) (hf : turnFoldable m = true) :
    openaiHistoryTurn m = some (if turnHasText m then openaiTurn m else .null) := by
  unfold openaiHistoryTurn turnHasText openaiTurn
  unfold turnFoldable at hf
  unfold turnText at hf ⊢
  by_cases hc : (get m "content").isString = true
  · simp only [hc, if_true] at hf ⊢
    cases hv : get m "content" with
    | str s =>
      by_cases ht : jsTrim s = ""
      · simp [ht]
      · simp [ht]
    | _ => simp [hv, isString] at hc
  · simp only [hc, Bool.false_eq_true, if_false] at hf ⊢
    cases hv : get m "text" with
    | str s =>
      by_cases he : s = ""
      · subst he
        simp [jsOr, truthy, jsTrim_empty]
      · by_cases ht : jsTrim s = ""
        · simp [jsOr, truthy, he, ht]
        · simp [jsOr, truthy, he, ht]
    | _ => simp_all [jsOr, truthy, jsTrim_empty]

theorem openaiHistoryTurn_of_not_foldable (m : JsVal) (hf : turnFoldable m = false) :
    openaiHistoryTurn m = none := by
  unfold openaiHistoryTurn
  unfold turnFoldable at hf
  unfold turnText at hf
  by_cases hc : (get m "content").isString = true
  · simp only [hc, if_true] at hf
    cases hv : get m "content" <;> simp_all [isString]
  · simp only [hc, Bool.false_eq_true, if_false] at hf ⊢
    cases hv : get m "text" <;> simp_all [jsOr, truthy]

theorem openaiHistory_of_foldable (h : List JsVal)
    (hf : ∀ m ∈ h, turnFoldable m = true) :
    openaiHistory h = some ((h.filter turnHasText).map openaiTurn) := by
  have key : ∀ l : List JsVal, (∀ m ∈ l, turnFoldable m = true) →
      mapOpt openaiHistoryTurn l
        = some (l.map (fun m => if turnHasText m then openaiTurn m else .null)) := by
    intro l hl
    induction l with
    | nil => rfl
    | cons m rest ih =>
      have hrest : ∀ m' ∈ rest, turnFoldable m' = true := fun m' hm' => hl m' (by simp [hm'])
      simp [mapOpt, openaiHistoryTurn_of_foldable m (hl m (by simp)), ih hrest]
  have hfilter : ∀ l : List JsVal,
      (l.map (fun m => if turnHasText m then openaiTurn m else JsVal.null)).filter truthy
        = (l.filter turnHasText).map openaiTurn := by
    intro l
    induction l with
    | nil => rfl
    | cons m rest ih =>
      have hobj : (openaiTurn m).truthy = true := rfl
      by_cases hc : turnHasText m = true
      · simp [List.filter_cons, hc, hobj, ih]
      · simp [List.filter_cons, hc, truthy, ih]
  simp [openaiHistory, key h hf, hfilter]

theorem openaiHistory_of_not_foldable (h : List JsVal)
    (hf : ∃ m ∈ h, turnFoldable m = false) : openaiHistory h = none := by
  have key : mapOpt openaiHistoryTurn h = none := by
    induction h with
    | nil => simp at hf
    | cons m rest ih =>
      by_cases hm : turnFoldable m = true
      · have hrest : ∃ m' ∈ rest, turnFoldable m' = false := by
          obtain ⟨m', hm', hbad⟩ := hf
          rcases List.mem_cons.mp hm' with rfl | hin
          · rw [hm] at hbad; exact absurd hbad (by simp)
          · exact ⟨m', hin, hbad⟩
        simp [mapOpt, openaiHistoryTurn_of_foldable m hm, ih hrest]
      · have hm' : turnFoldable m = false := by simpa using hm
        simp [mapOpt, openaiHistoryTurn_of_not_foldable m hm']
  simp [openaiHistory, key]

theorem chatTry_gemini (env : Env) (provider : JsVal) (h : List JsVal) (s : String)
    (hs : jsTrim s ≠ "") (hg : strictEqStr provider "gemini" = true)
    (hk : env.geminiKey = true) :
    chatTry env provider (.str s) (.arr h)
      = (match chatGeminiContents h s with
        | none => .error typeError
        | some contents => .ok (.gemini contents)) := by
  have hne : s ≠ "" := by
    intro he
    exact hs (by rw [he]; exact jsTrim_empty)
  simp [chatTry, truthy, hne, hs, strictEqStr_default, hg, hk, iterate, jsOr]

theorem chatTry_openai (env : Env) (provider : JsVal) (h : List JsVal) (s : String)
    (hs : jsTrim s ≠ "") (hg : strictEqStr provider "gemini" = false)
    (hk : env.openaiKey = true) :
    chatTry env provider (.str s) (.arr h)
      = (match chatOpenAIMessages h s with
        | none => .error typeError
        | some messages => .ok (.openai messages 6)) := by
  have hne : s ≠ "" := by
    intro he
    exact hs (by rw [he]; exact jsTrim_empty)
  simp [chatTry, truthy, hne, hs, strictEqStr_default, hg, hk]

theorem filesTry_gemini (env : Env) (provider : JsVal) (prompt : String) (h : List JsVal)
    (files : List Upload) (images : List Image) (texts : List DocText)
    (hreq : jsTrim prompt ≠ "" ∨ files ≠ [])
    (hin : ingestLoop env ([], []) files = .ok (images, texts))
    (hg : strictEqStr provider "gemini" = true) (hk : env.geminiKey = true) :
    filesTry env provider prompt (.arr h) files
      = (match filesGeminiContents h prompt texts images with
        | none => .error typeError
        | some contents => .ok (.gemini contents)) := by
  have hcond : (decide (jsTrim prompt = "") && decide (files.length = 0)) = false := by
    rcases hreq with h | h
    · simp [h]
    · simp [h]
  have hit : iterate (jsOr (.arr h) (.arr [])) = .ok h := by simp [iterate, jsOr, truthy]
  simp only [filesTry, strictEqStr_jsOr]
  simp [hcond, hin, hg, hk, hit]

theorem filesTry_openai (env : Env) (provider : JsVal) (prompt : String) (h : List JsVal)
    (files : List Upload) (images : List Image) (texts : List DocText)
    (hreq : jsTrim prompt ≠ "" ∨ files ≠ [])
    (hin : ingestLoop env ([], []) files = .ok (images, texts))
    (hg : strictEqStr provider "gemini" = false) (hk : env.openaiKey = true) :
    filesTry env provider prompt (.arr h) files
      = (match filesOpenAIMessages h prompt texts images with
        | none => .error typeError
        | some messages => .ok (.openai messages 6)) := by
  have hcond : (decide (jsTrim prompt = "") && decide (files.length = 0)) = false := by
    rcases hreq with h | h
    · simp [h]
    · simp [h]
  simp only [filesTry, strictEqStr_jsOr]
  simp [hcond, hin, hg, hk]

theorem chatOpenAIMessages_of_foldable (h : List JsVal) (s : String)
    (hf : ∀ m ∈ h, turnFoldable m = true) :
    chatOpenAIMessages h s
      = some (.arr ((h.filter turnHasText).map openaiTurn ++
          [.obj [("role", .str "user"), ("content", .str (jsTrim s))]])) := by
  have ht := openaiHistory_of_foldable h hf
  simp only [chatOpenAIMessages, ht, Option.some_bind, sanitizeOpenAIMessages_arr,
    List.map_append, map_sanitizeMessageFn_history h _ ht]
  simp [sanitizeMessageFn, lookup]

theorem filesOpenAIMessages_of_foldable (h : List JsVal) (prompt : String)
    (texts : List DocText) (images : List Image)
    (hf : ∀ m ∈ h, turnFoldable m = true) :
    filesOpenAIMessages h prompt texts images
      = some (.arr ((h.filter turnHasText).map openaiTurn ++
          [.obj [("role", .str "user"),
            ("content", .arr (openaiContent prompt texts images))]])) := by
  have ht := openaiHistory_of_foldable h hf
  simp only [filesOpenAIMessages, ht, Option.some_bind, sanitizeOpenAIMessages_arr,
    List.map_append, map_sanitizeMessageFn_history h _ ht]
  simp [sanitizeMessageFn, lookup, setField, map_sanitizePart_openaiContent]

/-- C8 as stated fails. The history `[{role: 'user', text: 'yo'}]` has no turn
whose content is non-empty (its only turn has no `content`), so `K` is 0, yet
`/api/chat` sends Gemini one history turn, carrying the turn's `text`, before
the final user turn. And on the history `[{role: 'user', text: 5}]`, again with
`K` 0, nothing is sent at all, not even the final user turn: the handler
answers 500. -/
theorem history_text_fallback_counterexample :
    List.countP hasContent [.obj [("role", .str "user"), ("text", .str "yo")]] = 0 ∧
    (chatHandler (sampleEnv (.str "ok") .null) (.str "gemini") (.str "hi")
        (.arr [.obj [("role", .str "user"), ("text", .str "yo")]])).calls
      = [.gemini [
          .obj [("role", .str "user"), ("parts", .arr [.obj [("text", .str "yo")]])],
          .obj [("role", .str "user"), ("parts", .arr [.obj [("text", .str "hi")]])]]] ∧
    List.countP hasContent [.obj [("role", .str "user"), ("text", .num 5)]] = 0 ∧
    chatHandler (sampleEnv (.str "ok") .null) (.str "gemini") (.str "hi")
        (.arr [.obj [("role", .str "user"), ("text", .num 5)]])
      = ⟨500, failBody "Chat failed" typeError, [], []⟩ := by
  have h1 : jsTrim "hi" = "hi" := by decide
  have h2 : jsTrim "yo" = "yo" := by decide
  refine ⟨?_, ?_, ?_, ?_⟩
  · simp [List.countP_cons, hasContent, get, lookup]
  · have ht : chatTry (sampleEnv (.str "ok") .null) (.str "gemini") (.str "hi")
        (.arr [.obj [("role", .str "user"), ("text", .str "yo")]])
        = .ok (.gemini [
          .obj [("role", .str "user"), ("parts", .arr [.obj [("text", .str "yo")]])],
          .obj [("role", .str "user"), ("parts", .arr [.obj [("text", .str "hi")]])]]) := by
      rw [chatTry_gemini _ _ _ _ (by rw [h1]; decide) (by decide) rfl]
      simp [chatGeminiContents, geminiHistoryLoop, geminiHistoryStep, get, lookup, isString,
        jsOr, truthy, h1, h2, strictEqStr, textPart]
    rw [chatHandler_calls_of_step _ _ _ _ _ ht]
    rfl
  · simp [List.countP_cons, hasContent, get, lookup]
  · have ht : chatTry (sampleEnv (.str "ok") .null) (.str "gemini") (.str "hi")
        (.arr [.obj [("role", .str "user"), ("text", .num 5)]]) = .error typeError := by
      rw [chatTry_gemini _ _ _ _ (by rw [h1]; decide) (by decide) rfl]
      simp [chatGeminiContents, geminiHistoryLoop, geminiHistoryStep, get, lookup, isString,
        jsOr, truthy]
    simp [chatHandler, ht]

theorem turnText_of_content (m : JsVal) (c : String) (hc : get m "content" = .str c) :
    turnText m = .str c := by
  simp [turnText, hc, isString]

/-- C8, amended. History folding, at the handlers. The text of a turn is its
`content` when that is a string and its `text` field otherwise. For every
history in which every turn's text is a string or falsy, each chat path
(`/api/chat` and `/api/chat-with-files`, Gemini and OpenAI) sends the provider
one native turn per turn whose text is non-empty after trimming, carrying that
text, in the original relative order, followed by the single final user turn:
`K` history turns, `K` being the number of such turns, and no turn with empty
or whitespace-only text. A history holding a turn whose text is a truthy
non-string makes the path answer with its 500 error, no provider call made.
For a history whose turns all have string content, the text is the content and
these are the turns with non-blank content. -/
theorem history_folding (env : Env) (h : List JsVal) :
    ((h.filter turnHasText).map geminiTurn).length = h.countP turnHasText ∧
    ((h.filter turnHasText).map openaiTurn).length = h.countP turnHasText ∧
    (∀ m ∈ h.filter turnHasText, ∃ s, turnText m = .str s ∧ jsTrim s ≠ "") ∧
    ((∀ m ∈ h, ∃ c, get m "content" = .str c) →
      (∀ m ∈ h, turnFoldable m = true ∧ turnText m = get m "content") ∧
      h.filter turnHasText = h.filter hasContent) ∧
    (∀ s : String, jsTrim s ≠ "" → env.geminiKey = true →
      (∀ m ∈ h, turnFoldable m = true) →
      (chatHandler env (.str "gemini") (.str s) (.arr h)).calls
        = [.gemini ((h.filter turnHasText).map geminiTurn ++
            [.obj [("role", .str "user"), ("parts", .arr [textPart (jsTrim s)])]])]) ∧
    (∀ (s : String) (provider : JsVal), jsTrim s ≠ "" →
      strictEqStr provider "gemini" = false → env.openaiKey = true →
      (∀ m ∈ h, turnFoldable m = true) →
      (chatHandler env provider (.str s) (.arr h)).calls
        = [.openai (.arr ((h.filter turnHasText).map openaiTurn ++
            [.obj [("role", .str "user"), ("content", .str (jsTrim s))]])) 6]) ∧
    (∀ (prompt : String) (files : List Upload) (images : List Image) (texts : List DocText),
      (jsTrim prompt ≠ "" ∨ files ≠ []) →
      ingestLoop env ([], []) files = .ok (images, texts) → env.geminiKey = true →
      (∀ m ∈ h, turnFoldable m = true) →
      (filesHandler env (.str "gemini") prompt (.arr h) files).calls
        = [.gemini ((h.filter turnHasText).map geminiTurn ++
            [.obj [("role", .str "user"),
              ("parts", .arr (geminiParts prompt texts images))]])]) ∧
    (∀ (prompt : String) (provider : JsVal) (files : List Upload) (images : List Image)
      (texts : List DocText),
      (jsTrim prompt ≠ "" ∨ files ≠ []) →
      ingestLoop env ([], []) files = .ok (images, texts) →
      strictEqStr provider "gemini" = false → env.openaiKey = true →
      (∀ m ∈ h, turnFoldable m = true) →
      (filesHandler env provider prompt (.arr h) files).calls
        = [.openai (.arr ((h.filter turnHasText).map openaiTurn ++
            [.obj [("role", .str "user"),
              ("content", .arr (openaiContent prompt texts images))]])) 6]) ∧
    (∀ (s : String) (provider : JsVal), jsTrim s ≠ "" → selectedKey env provider = true →
      (∃ m ∈ h, turnFoldable m = false) →
      chatHandler env provider (.str s) (.arr h)
        = ⟨500, failBody "Chat failed" typeError, [], []⟩) ∧
    (∀ (prompt : String) (provider : JsVal) (files : List Upload)
      (acc : List Image × List DocText),
      (jsTrim prompt ≠ "" ∨ files ≠ []) → ingestLoop env ([], []) files = .ok acc →
      selectedKey env provider = true → (∃ m ∈ h, turnFoldable m = false) →
      filesHandler env provider prompt (.arr h) files
        = ⟨500, failBody "Chat-with-files failed" typeError, [], cleanup env files⟩) := by
  have hgem : strictEqStr (.str "gemini") "gemini" = true := by decide
  refine ⟨?_, ?_, ?_, ?_, ?_, ?_, ?_, ?_, ?_, ?_⟩
  · simp [List.countP_eq_length_filter]
  · simp [List.countP_eq_length_filter]
  · intro m hm
    have hc : turnHasText m = true := (List.mem_filter.mp hm).2
    unfold turnHasText at hc
    cases hv : turnText m with
    | str s => exact ⟨s, rfl, by simpa [hv] using hc⟩
    | _ => simp [hv] at hc
  · intro hwf
    refine ⟨?_, ?_⟩
    · intro m hm
      obtain ⟨c, hc⟩ := hwf m hm
      have ht := turnText_of_content m c hc
      exact ⟨by simp [turnFoldable, ht], by rw [ht, hc]⟩
    · apply List.filter_congr
      intro m hm
      obtain ⟨c, hc⟩ := hwf m hm
      simp [turnHasText, hasContent, turnText_of_content m c hc, hc]
  · intro s hs hk hf
    have ht : chatTry env (.str "gemini") (.str s) (.arr h)
        = .ok (.gemini ((h.filter turnHasText).map geminiTurn ++
            [.obj [("role", .str "user"), ("parts", .arr [textPart (jsTrim s)])]])) := by
      rw [chatTry_gemini env _ h s hs hgem hk]
      simp [chatGeminiContents, geminiHistoryLoop_of_foldable h hf]
    rw [chatHandler_calls_of_step _ _ _ _ _ ht]
    rfl
  · intro s provider hs hg hk hf
    have ht : chatTry env provider (.str s) (.arr h)
        = .ok (.openai (.arr ((h.filter turnHasText).map openaiTurn ++
            [.obj [("role", .str "user"), ("content", .str (jsTrim s))]])) 6) := by
      rw [chatTry_openai env provider h s hs hg hk, chatOpenAIMessages_of_foldable h s hf]
    rw [chatHandler_calls_of_step _ _ _ _ _ ht]
    rfl
  · intro prompt files images texts hreq hin hk hf
    have ht : filesTry env (.str "gemini") prompt (.arr h) files
        = .ok (.gemini ((h.filter turnHasText).map geminiTurn ++
            [.obj [("role", .str "user"),
              ("parts", .arr (geminiParts prompt texts images))]])) := by
      rw [filesTry_gemini env _ prompt h files images texts hreq hin hgem hk]
      simp [filesGeminiContents, geminiHistoryLoop_of_foldable h hf]
    rw [filesHandler_calls_of_step _ _ _ _ _ _ ht]
    rfl
  · intro prompt provider files images texts hreq hin hg hk hf
    have ht : filesTry env provider prompt (.arr h) files
        = .ok (.openai (.arr ((h.filter turnHasText).map openaiTurn ++
            [.obj [("role", .str "user"),
              ("content", .arr (openaiContent prompt texts images))]])) 6) := by
      rw [filesTry_openai env provider prompt h files images texts hreq hin hg hk,
        filesOpenAIMessages_of_foldable h prompt texts images hf]
    rw [filesHandler_calls_of_step _ _ _ _ _ _ ht]
    rfl
  · intro s provider hs hsel hbad
    have ht : chatTry env provider (.str s) (.arr h) = .error typeError := by
      by_cases hg : strictEqStr provider "gemini" = true
      · have hk : env.geminiKey = true := by simpa [selectedKey, hg] using hsel
        rw [chatTry_gemini env provider h s hs hg hk]
        simp [chatGeminiContents, geminiHistoryLoop_of_not_foldable h hbad]
      · have hg' : strictEqStr provider "gemini" = false := by simpa using hg
        have hk : env.openaiKey = true := by simpa [selectedKey, hg'] using hsel
        rw [chatTry_openai env provider h s hs hg' hk]
        simp [chatOpenAIMessages, openaiHistory_of_not_foldable h hbad]
    simp [chatHandler, ht]
  · intro prompt provider files acc hreq hin hsel hbad
    obtain ⟨images, texts⟩ := acc
    have ht : filesTry env provider prompt (.arr h) files = .error typeError := by
      by_cases hg : strictEqStr provider "gemini" = true
      · have hk : env.geminiKey = true := by simpa [selectedKey, hg] using hsel
        rw [filesTry_gemini env provider prompt h files images texts hreq hin hg hk]
        simp [filesGeminiContents, geminiHistoryLoop_of_not_foldable h hbad]
      · have hg' : strictEqStr provider "gemini" = false := by simpa using hg
        have hk : env.openaiKey = true := by simpa [selectedKey, hg'] using hsel
        rw [filesTry_openai env provider prompt h files images texts hreq hin hg' hk]
        simp [filesOpenAIMessages, openaiHistory_of_not_foldable h hbad]
    simp [filesHandler, ht]

/-- C8 amended, at `/api/chat` for Gemini with a three-turn history whose middle
turn is blank and whose last turn only has a `text` field: two history turns
are sent, then the final user turn. -/
theorem history_folding_witness :
    (chatHandler (sampleEnv (.str "ok") .null) (.str "gemini") (.str "next")
        (.arr [.obj [("role", .str "user"), ("content", .str "hi")],
          .obj [("role", .str "assistant"), ("content", .str " \n")],
          .obj [("role", .str "assistant"), ("text", .str "yo")]])).calls
      = [.gemini [
          .obj [("role", .str "user"), ("parts", .arr [.obj [("text", .str "hi")]])],
          .obj [("role", .str "model"), ("parts", .arr [.obj [("text", .str "yo")]])],
          .obj [("role", .str "user"), ("parts", .arr [.obj [("text", .str "next")]])]]] :=
  have h1 : jsTrim "hi" = "hi" := by decide
  have h2 : jsTrim " \n" = "" := by decide
  have h3 : jsTrim "yo" = "yo" := by decide
  have h4 : jsTrim "next" = "next" := by decide
  ((history_folding (sampleEnv (.str "ok") .null)
      [.obj [("role", .str "user"), ("content", .str "hi")],
        .obj [("role", .str "assistant"), ("content", .str " \n")],
        .obj [("role", .str "assistant"), ("text", .str "yo")]]).2.2.2.2.1 "next"
      (by rw [h4]; decide) rfl
      (by
        intro m hm
        simp only [List.mem_cons, List.mem_singleton, List.not_mem_nil, or_false] at hm
        rcases hm with rfl | rfl | rfl <;>
          simp [turnFoldable, turnText, get, lookup, isString])).trans
    (by
      simp [List.filter_cons, turnHasText, turnText, get, lookup, isString, geminiTurn,
        strictEqStr, textPart, h1, h2, h3, h4])

end ChatbotPro
